import Mathlib

/-!
Verification of the banana-batch image generation services.

This file gives a shallow embedding of the TypeScript source in
`src/services/geminiService.ts` (which concatenates the current Gemini
service, a legacy Gemini service variant, the OpenAI-compatible service and
the shared type declarations) and proves the frozen claims about it.

Modelling conventions:
* JS strings are Lean `String`s (base64 payloads and URLs are ASCII, so
  UTF-16 length agrees with character count wherever the code measures one).
* The float expression `(len * 3 / 4) / (1024 * 1024) > 20` is exact for all
  realistic lengths (every intermediate is exactly representable), so it is
  embedded as the integer comparison `83886080 < 3 * len`.
* Functions that `throw` are embedded as `Except String` / `Option`.
* `generateUUID()` is embedded as a threaded fresh counter rendered with
  `toString`; no claim depends on the concrete identifier text.
-/

namespace BananaBatch

/-- Image result status, from `types.ts` (`'success' | 'error'`). -/
inductive ImgStatus
  | success
  | error
deriving DecidableEq, Repr

/-- `GeneratedImage` from `types.ts`. -/
structure GeneratedImage where
  id : String
  data : String
  mimeType : String
  status : ImgStatus
deriving DecidableEq, Repr

/-- `UploadedImage` from `types.ts` (fields the services read). -/
structure UploadedImage where
  id : String
  data : String
deriving DecidableEq, Repr

/-- Message role from `types.ts` (`'user' | 'model'`). -/
inductive Role
  | user
  | model
deriving DecidableEq, Repr

/-- `Message` from `types.ts` (fields the services read). -/
structure Message where
  id : String
  role : Role
  text : Option String
  textVariations : Option (List String)
  images : Option (List GeneratedImage)
  selectedImageId : Option String
deriving DecidableEq, Repr

/-- A content part of an outbound request: Gemini `text`/`inlineData`
parts, or an OpenAI `image_url` part. -/
inductive Part
  | text (t : String)
  | inlineData (mimeType data : String)
  | imageUrl (url : String)
deriving DecidableEq, Repr

/-- A Gemini `Content` entry: a role string with parts. -/
structure Content where
  role : String
  parts : List Part
deriving DecidableEq, Repr

/-- The intermediate `ImageInput` record of the current Gemini service. -/
structure ImageInput where
  mimeType : String
  base64Data : String
deriving DecidableEq, Repr

/-- `MAX_RETRIES = 3` from the source. -/
def MAX_RETRIES : Nat := 3

/-- `MAX_CONCURRENT_REQUESTS = 10` from the source. -/
def MAX_CONCURRENT_REQUESTS : Nat := 10

/-- `const numWorkers = Math.min(MAX_CONCURRENT_REQUESTS, settings.batchSize)`. -/
def numWorkers (batchSize : Nat) : Nat := min MAX_CONCURRENT_REQUESTS batchSize

/-- JS line terminators, which `.` in a regex without the `s` flag never
matches: `\n`, `\r`, U+2028, U+2029. -/
def lineTerminator (c : Char) : Bool :=
  c.toNat = 10 || c.toNat = 13 || c.toNat = 0x2028 || c.toNat = 0x2029

/-- The base64 alphabet (with padding): letters, digits, `+`, `/`, `=`. -/
def base64Char (c : Char) : Bool :=
  (65 ≤ c.toNat && c.toNat ≤ 90) || (97 ≤ c.toNat && c.toNat ≤ 122) ||
  (48 ≤ c.toNat && c.toNat ≤ 57) || c.toNat = 43 || c.toNat = 47 || c.toNat = 61

/-- Step three of the data-URI regex: after `data:{mime};` the literal
`base64,` must follow, and the rest is the payload: non-empty, with no
line terminator (which `.` never matches). -/
def regexTail (mime tail : List Char) : Option (String × String) :=
  if ("base64,".data).isPrefixOf tail then
    if tail.drop 7 = [] then none
    else if (tail.drop 7).any lineTerminator then none
    else some (String.mk mime, String.mk (tail.drop 7))
  else none

/-- Step two of the data-URI regex: the character after the mime group must
be the literal `;`. -/
def regexSemi (mime after : List Char) : Option (String × String) :=
  match after with
  | ';' :: tail => regexTail mime tail
  | _ => none

/-- Step one of the data-URI regex after the `data:` prefix: the mime group
`([^;]+)` is the non-empty run up to the first `;`. -/
def regexAfterPrefix (rest : List Char) : Option (String × String) :=
  if rest.takeWhile (fun c => c != ';') = [] then none
  else
    regexSemi (rest.takeWhile (fun c => c != ';'))
      (rest.drop (rest.takeWhile (fun c => c != ';')).length)

/-- The regular expression `/^data:([^;]+);base64,(.+)$/` applied to a
string: the mime group is the (non-empty) run up to the first `;`, which
must be followed by the literal `base64,`, and the payload is the non-empty
remainder, which `.` forbids from containing line terminators. -/
def regexMatchDataUri (uri : String) : Option (String × String) :=
  if ("data:".data).isPrefixOf uri.data then
    regexAfterPrefix (uri.data.drop 5)
  else none

/-- `extractBase64Data` from the source: run the data-URI regex; on a match
apply the `|| 'image/png'` mime fallback and the (unreachable) empty payload
guard; on failure log and return `null` (embedded as `none`). -/
def extractBase64Data (dataUri : String) : Option (String × String) :=
  match regexMatchDataUri dataUri with
  | none => none
  | some (mimeTypeFromData, base64Data) =>
    let finalMimeType := if mimeTypeFromData = "" then "image/png" else mimeTypeFromData
    if base64Data = "" then none
    else some (finalMimeType, base64Data)

/-- The oversize test `(base64Data.length * 3 / 4) / (1024 * 1024) >
VALIDATION_LIMITS.MAX_IMAGE_SIZE_MB`.

Modelled from the spec: `VALIDATION_LIMITS.MAX_IMAGE_SIZE_MB` lives in
`src/utils/validation.ts`, which is not part of the sources; spec section
4.1 fixes the configured maximum at 20MB. The float comparison is exact and
equals `3 * len > 20 * 4 * 1024 * 1024`. -/
def sizeTooLarge (len : Nat) : Bool :=
  83886080 < 3 * len

/-- Validation of one uploaded image in the current Gemini service: decode
the data URI, then drop the image when the estimated size exceeds the
maximum. -/
def validateUploaded (img : UploadedImage) : Option ImageInput :=
  match extractBase64Data img.data with
  | none => none
  | some (mt, b64) => if sizeTooLarge b64.length then none else some ⟨mt, b64⟩

/-- The uploaded-image filtering loop of the current Gemini service. -/
def filterUploadedG (l : List UploadedImage) : List ImageInput :=
  l.filterMap validateUploaded

/-- `collectSelectedImages` from the current Gemini service: for each model
message with a (truthy) `selectedImageId` and an `images` array, take the
selected image when it exists with status `success`, decodes, and is not
oversized. -/
def collectSelectedImages (messages : List Message) : List ImageInput :=
  messages.filterMap fun msg =>
    match msg.role, msg.selectedImageId, msg.images with
    | Role.model, some selId, some imgs =>
      if selId = "" then none
      else
        match imgs.find? (fun img => img.id = selId) with
        | some img =>
          if img.status = ImgStatus.success then
            match extractBase64Data img.data with
            | some (mt, b64) => if sizeTooLarge b64.length then none else some ⟨mt, b64⟩
            | none => none
          else none
        | none => none
    | _, _, _ => none

/-- `buildHistory` from the current Gemini service: intentionally empty,
prior text is not carried forward. -/
def buildHistory (_messages : List Message) : List Content :=
  []

/-- Role rendering used when a `Message` role is written into a `Content`. -/
def roleStr : Role → String
  | Role.user => "user"
  | Role.model => "model"

/-- The parts the legacy `buildHistory` variant builds for one message:
only a successful selected model image survives, never any text. -/
def legacyParts (msg : Message) : List Part :=
  if msg.role = Role.model then
    match msg.images with
    | some imgs =>
      if imgs.length > 0 then
        match imgs.find? (fun img => some img.id = msg.selectedImageId) with
        | some img =>
          if img.status = ImgStatus.success then
            match extractBase64Data img.data with
            | some (mt, b64) => [Part.inlineData mt b64]
            | none => []
          else []
        | none => []
      else []
    | none => []
  else []

/-- `buildHistory` from the legacy Gemini service variant: only successful
selected model images are carried forward, never any text. -/
def buildHistoryLegacy (messages : List Message) : List Content :=
  messages.filterMap fun msg =>
    if (legacyParts msg).isEmpty then none else some ⟨roleStr msg.role, legacyParts msg⟩

/-- The JS `\s` character class (also the set `String.prototype.trim`
removes): ASCII whitespace, NBSP, the Unicode space separators, the line
separators and the BOM. -/
def jsWhitespace (c : Char) : Bool :=
  let n := c.toNat
  n = 0x9 || n = 0xa || n = 0xb || n = 0xc || n = 0xd || n = 0x20 ||
  n = 0xa0 || n = 0x1680 || (0x2000 ≤ n && n ≤ 0x200a) ||
  n = 0x2028 || n = 0x2029 || n = 0x202f || n = 0x205f || n = 0x3000 || n = 0xfeff

/-- The character class `[一二三四五六七八九十\d]`
of the image-reference pattern: the Chinese numerals one..ten or an ASCII
digit. -/
def cnDigit (c : Char) : Bool :=
  c == '一' || c == '二' || c == '三' || c == '四' || c == '五' ||
  c == '六' || c == '七' || c == '八' || c == '九' || c == '十' || c.isDigit

/-- Alternative `图[class]+` (`图` followed by at least one class
character) tested at the head of the tail. -/
def matchTu : List Char → Bool
  | c0 :: c1 :: _ => c0 == '图' && cnDigit c1
  | _ => false

/-- Alternative `image\s*[1-9]\d*` (case-insensitive) tested at the head of
the tail; for a test, the trailing `\d*` is irrelevant. -/
def matchImage : List Char → Bool
  | i :: m :: a :: g :: e :: rest =>
    i.toLower == 'i' && m.toLower == 'm' && a.toLower == 'a' &&
    g.toLower == 'g' && e.toLower == 'e' &&
    (match rest.dropWhile jsWhitespace with
     | c :: _ => '1' ≤ c && c ≤ '9'
     | [] => false)
  | _ => false

/-- After `第` and one class character: class characters until `张`. -/
def diTail : List Char → Bool
  | c :: rest => c == '张' || (cnDigit c && diTail rest)
  | [] => false

/-- Alternative `第[class]+张` (`第` digits `张`) tested at the head
of the tail. -/
def matchDi : List Char → Bool
  | c0 :: c1 :: rest => c0 == '第' && cnDigit c1 && diTail rest
  | _ => false

/-- After `第` and one `[1-9]` digit: ASCII digits until `张`. -/
def diAsciiTail : List Char → Bool
  | c :: rest => c == '张' || (c.isDigit && diAsciiTail rest)
  | [] => false

/-- Alternative `第[1-9]\d*张` tested at the head of the tail. -/
def matchDiAscii : List Char → Bool
  | c0 :: c1 :: rest => c0 == '第' && ('1' ≤ c1 && c1 ≤ '9') && diAsciiTail rest
  | _ => false

/-- Search loop of `imageRefPattern.test(prompt)`: some tail of the prompt
starts with one of the four alternatives. -/
def refScan : List Char → Bool
  | [] => false
  | c :: rest =>
    matchTu (c :: rest) || matchImage (c :: rest) || matchDi (c :: rest) ||
    matchDiAscii (c :: rest) || refScan rest

/-- `imageRefPattern.test(prompt)` from the current Gemini service. -/
def hasImageReference (prompt : String) : Bool :=
  refScan prompt.data

/-- `['?', ...][num - 1] || num.toString()`: the source file stores the
Chinese numerals of this table as literal `?` characters, an array of ten
one-character strings, so positions 1..10 yield `"?"`. -/
def chineseNumFor (num : Nat) : String :=
  if 1 ≤ num ∧ num ≤ 10 then "?" else toString num

/-- One legend entry: the template `?${chineseNum}??${num}???????` of the
source (the Chinese text survives only as `?` characters). -/
def imageLabel (num : Nat) : String :=
  "?" ++ chineseNumFor num ++ "??" ++ toString num ++ "???????"

/-- `imageLabels`: entries for 1..count joined with the source's
one-character separator. -/
def imageLabels (count : Nat) : String :=
  String.intercalate "?" ((List.range count).map fun i => imageLabel (i + 1))

/-- The legend prefix put in front of the prompt:
`` `???????${imageLabels}?\n\n` `` from the source. -/
def imageOrderLegend (count : Nat) : String :=
  "???????" ++ imageLabels count ++ "?" ++ "\n\n"

/-- The prompt-enhancement of the current Gemini service: a pure function
of the prompt text and the number of surviving image inputs. -/
def enhancePrompt (prompt : String) (imageCount : Nat) : String :=
  if 1 < imageCount ∧ hasImageReference prompt = true then
    imageOrderLegend imageCount ++ prompt
  else prompt

/-- The surviving image inputs of the current Gemini service: selected
history images first, then the surviving uploaded images. -/
def geminiImageInputs (history : List Message)
    (uploadedImages : Option (List UploadedImage)) : List ImageInput :=
  collectSelectedImages history ++ filterUploadedG (uploadedImages.getD [])

/-- The `userParts` array of the current Gemini service: the (possibly
enhanced) text part first, then one `inlineData` part per surviving image
input. -/
def geminiUserParts (prompt : String) (history : List Message)
    (uploadedImages : Option (List UploadedImage)) : List Part :=
  (if prompt = "" then []
    else [Part.text (enhancePrompt prompt (geminiImageInputs history uploadedImages).length)]) ++
  (geminiImageInputs history uploadedImages).map fun i =>
    Part.inlineData i.mimeType i.base64Data

/-- The pre-worker phase of `generateImageBatchStream` (current Gemini
service), after the out-of-scope `validateApiKey`/`validatePrompt` boundary
checks: rejects when at least one uploaded image was supplied and none
survives filtering, then rejects when no part at all remains, else returns
the user message parts. -/
def geminiPreflight (prompt : String) (history : List Message)
    (uploadedImages : Option (List UploadedImage)) : Except String (List Part) :=
  if (uploadedImages.getD []).length > 0 ∧ filterUploadedG (uploadedImages.getD []) = [] then
    Except.error "No valid images could be processed. Please check image format and size."
  else if geminiUserParts prompt history uploadedImages = [] then
    Except.error "At least one image or text prompt is required."
  else Except.ok (geminiUserParts prompt history uploadedImages)

/-- The `contents` array each worker of the current Gemini service sends:
`[...formattedHistory, { role: 'user', parts: userParts }]` with
`formattedHistory = buildHistory history`. -/
def geminiContents (prompt : String) (history : List Message)
    (uploadedImages : Option (List UploadedImage)) : Except String (List Content) :=
  (geminiPreflight prompt history uploadedImages).map fun parts =>
    buildHistory history ++ [⟨"user", parts⟩]

/-- `collectSelectedImages` from the OpenAI-compatible service: same guards
as the Gemini one, but the emitted part carries the full original data URI
as an `image_url`. -/
def collectSelectedImagesOA (messages : List Message) : List Part :=
  messages.filterMap fun msg =>
    match msg.role, msg.selectedImageId, msg.images with
    | Role.model, some selId, some imgs =>
      if selId = "" then none
      else
        match imgs.find? (fun img => img.id = selId) with
        | some img =>
          if img.status = ImgStatus.success then
            match extractBase64Data img.data with
            | some (_, b64) => if sizeTooLarge b64.length then none else some (Part.imageUrl img.data)
            | none => none
          else none
        | none => none
    | _, _, _ => none

/-- Validation of one uploaded image in the OpenAI-compatible service: the
surviving part carries the full original data URI. -/
def validateUploadedOA (img : UploadedImage) : Option Part :=
  match extractBase64Data img.data with
  | none => none
  | some (_, b64) => if sizeTooLarge b64.length then none else some (Part.imageUrl img.data)

/-- The `userContent` array of the OpenAI-compatible service: the raw
prompt text first, then selected history images, then surviving uploads. -/
def openaiUserContent (prompt : String) (history : List Message)
    (uploadedImages : Option (List UploadedImage)) : List Part :=
  (if prompt = "" then [] else [Part.text prompt]) ++
  collectSelectedImagesOA history ++
  (uploadedImages.getD []).filterMap validateUploadedOA

/-- The pre-worker phase of `generateImageBatchStreamOpenAI`: rejects only
when no part at all remains; there is no zero-surviving-uploads rejection
in this variant. -/
def openaiPreflight (prompt : String) (history : List Message)
    (uploadedImages : Option (List UploadedImage)) : Except String (List Part) :=
  if openaiUserContent prompt history uploadedImages = [] then
    Except.error "At least one image or text prompt is required."
  else Except.ok (openaiUserContent prompt history uploadedImages)

/-- Whether an outbound part is a text part. -/
def isTextPart : Part → Bool
  | Part.text _ => true
  | _ => false

/-- Whether an outbound part is an inline-data image part. -/
def isInlinePart : Part → Bool
  | Part.inlineData _ _ => true
  | _ => false

/-- Whether an `Except` result is a success. -/
def isOkE {ε α : Type} : Except ε α → Bool
  | Except.ok _ => true
  | Except.error _ => false

/-- An uploaded image whose payload is not a data URI: dropped by the
filters. -/
def badImage : UploadedImage := ⟨"img-bad", "not-a-data-uri"⟩

/-- A valid uploaded PNG. -/
def goodImage1 : UploadedImage := ⟨"img-1", "data:image/png;base64,AAAA"⟩

/-- A second valid uploaded PNG. -/
def goodImage2 : UploadedImage := ⟨"img-2", "data:image/png;base64,BBBB"⟩

/-- A prompt with an ordinal image reference. -/
def ordinalPrompt : String := "put image 1 next to image 2"

/-- `String.prototype.trim`. -/
def jsTrim (s : String) : String :=
  String.mk (((s.data.dropWhile jsWhitespace).reverse.dropWhile jsWhitespace).reverse)

/-- `replace(/\/+$/, '')`: drop every trailing slash. -/
def stripTrailingSlashes (s : String) : String :=
  String.mk ((s.data.reverse.dropWhile fun c => c == '/').reverse)

/-- Substring search on character lists: some tail of `l` starts with
`pat`. -/
def hasInfix (pat : List Char) : List Char → Bool
  | [] => pat.isEmpty
  | c :: rest => pat.isPrefixOf (c :: rest) || hasInfix pat rest

/-- `String.prototype.includes`. -/
def containsSub (s pat : String) : Bool :=
  hasInfix pat.data s.data

/-- `String.prototype.endsWith`. -/
def endsWithStr (s suffix : String) : Bool :=
  suffix.data.isSuffixOf s.data

/-- The test `/\/models\/[^/]+$/`: a non-empty slash-free final segment
preceded by `/models/`. -/
def endsWithModelsSeg (s : String) : Bool :=
  let r := s.data.reverse
  let seg := r.takeWhile fun c => c != '/'
  (!seg.isEmpty) && ("/models/".data.reverse).isPrefixOf (r.drop seg.length)

/-- The branch structure of `buildGeminiEndpoint` on the normalized URL
(trimmed, trailing slashes stripped). -/
def buildGeminiEndpointCore (normalized modelName : String) : String :=
  if containsSub normalized ":generateContent" then normalized
  else if endsWithModelsSeg normalized then normalized ++ ":generateContent"
  else if endsWithStr normalized "/models" then
    normalized ++ "/" ++ modelName ++ ":generateContent"
  else if endsWithStr normalized "/v1beta" || endsWithStr normalized "/v1" then
    normalized ++ "/models/" ++ modelName ++ ":generateContent"
  else normalized ++ "/v1beta/models/" ++ modelName ++ ":generateContent"

/-- `buildGeminiEndpoint` from the source. -/
def buildGeminiEndpoint (baseUrl modelName : String) : String :=
  if jsTrim baseUrl = "" then ""
  else buildGeminiEndpointCore (stripTrailingSlashes (jsTrim baseUrl)) modelName

/-- Upper-case hexadecimal digit. -/
def hexDigit (n : Nat) : Char :=
  if n < 10 then Char.ofNat (48 + n) else Char.ofNat (55 + n)

/-- UTF-8 bytes of a character, for percent-encoding. -/
def utf8Bytes (c : Char) : List Nat :=
  let n := c.toNat
  if n < 0x80 then [n]
  else if n < 0x800 then [0xc0 + n / 0x40, 0x80 + n % 0x40]
  else if n < 0x10000 then [0xe0 + n / 0x1000, 0x80 + (n / 0x40) % 0x40, 0x80 + n % 0x40]
  else [0xf0 + n / 0x40000, 0x80 + (n / 0x1000) % 0x40, 0x80 + (n / 0x40) % 0x40, 0x80 + n % 0x40]

/-- The characters `encodeURIComponent` leaves unescaped. -/
def uriUnreserved (c : Char) : Bool :=
  c.isAlpha || c.isDigit || c == '-' || c == '_' || c == '.' || c == '!' ||
  c == '~' || c == '*' || c == '\'' || c == '(' || c == ')'

/-- `encodeURIComponent`. -/
def encodeURIComponent (s : String) : String :=
  String.mk (s.data.flatMap fun c =>
    if uriUnreserved c then [c]
    else (utf8Bytes c).flatMap fun b => ['%', hexDigit (b / 16), hexDigit (b % 16)])

/-- `appendKeyParam` from the source. -/
def appendKeyParam (url apiKey : String) : String :=
  if apiKey = "" ∨ containsSub url "key=" = true then url
  else
    url ++ (if containsSub url "?" then "&" else "?") ++ "key=" ++
      encodeURIComponent apiKey

/-- The outbound HTTP request shape of the raw proxy call (method, URL and
headers; the JSON body carries the contents and is not at issue in any
claim). -/
structure HttpRequest where
  url : String
  method : String
  headers : List (String × String)
deriving DecidableEq, Repr

/-- The request construction of `fetchGeminiGenerateContent`: build the
endpoint, append the key parameter, fail when the endpoint is empty, and
send a POST with JSON content type, a bearer `Authorization` header and an
`x-goog-api-key` header. -/
def geminiProxyRequest (baseUrl apiKey modelName : String) : Except String HttpRequest :=
  if appendKeyParam (buildGeminiEndpoint baseUrl modelName) apiKey = "" then
    Except.error "Gemini Base URL is missing."
  else
    Except.ok
      { url := appendKeyParam (buildGeminiEndpoint baseUrl modelName) apiKey
        method := "POST"
        headers :=
          [("Content-Type", "application/json"),
           ("Authorization", "Bearer " ++ apiKey),
           ("x-goog-api-key", apiKey)] }

/-! ## The worker-pool dispatcher

The JS dispatcher spawns `min(10, batchSize)` workers over one shared
queue. Between two `await` points JS runs synchronously, so a slot is
claimed atomically (`taskQueue.shift()`), and the counter increment plus
`onProgress` call of a resolved slot is atomic as well. Every event of a
slot is emitted by the one worker that claimed it, from data of that slot
alone, so for the per-slot event multiplicities and the progress sequence
every interleaving is equivalent to one worker draining the queue in claim
order; that serialization is modelled here. The cancellation signal is an
external schedule `abort : Nat → Bool` sampled at an explicit step counter:
the counter advances across each provider call and each backoff delay (the
suspension points), so the signal can change value exactly where the JS
signal can. -/

/-- One observable callback invocation (or backoff delay) of a batch run. -/
inductive TraceItem
  | onImage (img : GeneratedImage)
  | onText (t : String)
  | onProgress (completed total : Nat)
  | wait (ms : Nat)
deriving DecidableEq, Repr

/-- A part of a provider response candidate as the worker reads it:
an optional `inlineData` object (optional mime type, data string) and an
optional `text` field. -/
structure RespPartRaw where
  inlineData : Option (Option String × String)
  text : Option String
deriving DecidableEq, Repr

/-- The truthiness test `inlineData && inlineData.data`. -/
def isImagePartRaw (p : RespPartRaw) : Bool :=
  match p.inlineData with
  | some (_, d) => d != ""
  | none => false

/-- The text the `else if (part.text)` branch emits for a part, if any. -/
def partTextOf (p : RespPartRaw) : Option String :=
  if isImagePartRaw p then none
  else
    match p.text with
    | some t => if t = "" then none else some t
    | none => none

/-- What one attempt yields before the part loop runs: a parsed candidate
with content parts, or one of the thrown failures (missing candidate,
safety block, missing content parts, or a transport/HTTP error). -/
inductive AttemptResult
  | ok (parts : List RespPartRaw)
  | noCandidate
  | safetyBlocked
  | noContentParts
  | httpError (msg : String)
deriving DecidableEq, Repr

/-- Result of the part loop of one attempt: emitted events, the advanced
fresh-id counter, and the `foundImage` flag. -/
structure AttemptOut where
  events : List TraceItem
  ids : Nat
  found : Bool
deriving DecidableEq, Repr

/-- The success image built for an `inlineData` part:
mime fallback `'image/png'`, data URI reassembly, status `success`. -/
def partImage (mimeOpt : Option String) (d : String) (n : Nat) : GeneratedImage :=
  let mt :=
    match mimeOpt with
    | some m => if m = "" then "image/png" else m
    | none => "image/png"
  ⟨toString n, "data:" ++ mt ++ ";base64," ++ d, mt, ImgStatus.success⟩

/-- The `for (const part of content.parts)` loop: emit `onImage` for each
part with (truthy) inline data, otherwise `onText` for a truthy text, and
accumulate `foundImage`. -/
def processParts : List RespPartRaw → Nat → AttemptOut
  | [], n => ⟨[], n, false⟩
  | p :: rest, n =>
    match p.inlineData with
    | some (mimeOpt, d) =>
      if d = "" then
        let out := processParts rest n
        ⟨((partTextOf p).map TraceItem.onText).toList ++ out.events, out.ids, out.found⟩
      else
        let out := processParts rest (n + 1)
        ⟨TraceItem.onImage (partImage mimeOpt d n) :: out.events, out.ids, true⟩
    | none =>
      let out := processParts rest n
      ⟨((partTextOf p).map TraceItem.onText).toList ++ out.events, out.ids, out.found⟩

/-- One attempt body after the response arrives: thrown failures emit
nothing; a parsed candidate runs the part loop. The attempt succeeds iff
`foundImage` (otherwise `'No image data in response'` is thrown). -/
def attemptStep : AttemptResult → Nat → AttemptOut
  | AttemptResult.ok parts, n => processParts parts n
  | _, n => ⟨[], n, false⟩

/-- Whether an attempt result makes the attempt succeed. -/
def attemptFound : AttemptResult → Bool
  | AttemptResult.ok parts => parts.any isImagePartRaw
  | _ => false

/-- Number of image parts of an attempt result. -/
def imgCountR : AttemptResult → Nat
  | AttemptResult.ok parts => parts.countP isImagePartRaw
  | _ => 0

/-- Texts emitted during one attempt. -/
def attemptTexts : AttemptResult → List String
  | AttemptResult.ok parts => parts.filterMap partTextOf
  | _ => []

/-- How the retry loop of one slot ended. -/
inductive RetryExit
  | succeeded
  | exhausted
  | aborted
deriving DecidableEq, Repr

/-- Result of the retry loop of one slot. -/
structure RetryOut where
  events : List TraceItem
  exit : RetryExit
  ids : Nat
  time : Nat
  attempts : Nat
deriving DecidableEq, Repr

/-- The retry loop `while (attempt <= MAX_RETRIES && !success)` of one
slot. `o a` is what attempt number `a` yields; `abort` is sampled at the
current step: the loop entry checks it before each attempt, the provider
call advances the step by one, and a backoff delay advances it by one.
After a failed attempt `attempt` is incremented and, when more retries
remain and the signal is clear, the worker waits
`1000 * 2 ^ (attempt - 1)` ms. `fuel` is `MAX_RETRIES + 1 - attempt`, which
bounds the loop. -/
def retryLoop (o : Nat → AttemptResult) (abort : Nat → Bool) :
    Nat → Nat → Nat → Nat → Nat → RetryOut
  | 0, _, n, t, made => ⟨[], RetryExit.exhausted, n, t, made⟩
  | fuel + 1, attempt, n, t, made =>
    if attempt > MAX_RETRIES then ⟨[], RetryExit.exhausted, n, t, made⟩
    else if abort t then ⟨[], RetryExit.aborted, n, t, made⟩
    else
      let a := attemptStep (o attempt) n
      if a.found then ⟨a.events, RetryExit.succeeded, a.ids, t + 1, made + 1⟩
      else
        let attempt1 := attempt + 1
        if attempt1 ≤ MAX_RETRIES ∧ abort (t + 1) = false then
          let out := retryLoop o abort fuel attempt1 a.ids (t + 2) (made + 1)
          ⟨a.events ++ TraceItem.wait (1000 * 2 ^ (attempt1 - 1)) :: out.events,
           out.exit, out.ids, out.time, out.attempts⟩
        else
          let out := retryLoop o abort fuel attempt1 a.ids (t + 1) (made + 1)
          ⟨a.events ++ out.events, out.exit, out.ids, out.time, out.attempts⟩

/-- Result of processing one claimed slot. -/
structure SlotOut where
  events : List TraceItem
  ids : Nat
  time : Nat
  aborted : Bool
  inc : Bool
deriving DecidableEq, Repr

/-- The error placeholder image reported after exhausted retries. -/
def errorImage (n : Nat) : GeneratedImage :=
  ⟨toString n, "", "", ImgStatus.error⟩

/-- One claimed slot: run the retry loop; a loop exit through an observed
abort returns from the worker with nothing further emitted; otherwise the
error placeholder is reported when the slot failed and the signal is still
clear, and the progress counter is bumped and reported when the signal is
still clear. -/
def processSlot (o : Nat → AttemptResult) (abort : Nat → Bool)
    (total completed n t : Nat) : SlotOut :=
  let r := retryLoop o abort (MAX_RETRIES + 1) 0 n t 0
  if r.exit = RetryExit.aborted then ⟨r.events, r.ids, r.time, true, false⟩
  else
    let err : List TraceItem × Nat :=
      if r.exit = RetryExit.succeeded ∨ abort r.time = true then ([], r.ids)
      else ([TraceItem.onImage (errorImage r.ids)], r.ids + 1)
    let prog : List TraceItem × Bool :=
      if abort r.time = true then ([], false)
      else ([TraceItem.onProgress (completed + 1) total], true)
    ⟨r.events ++ err.1 ++ prog.1, err.2, r.time, false, prog.2⟩

/-- Result of a worker draining the queue. -/
structure WorkerOut where
  events : List TraceItem
  completed : Nat
  ids : Nat
  time : Nat
  queue : List Nat
  aborted : Bool
deriving DecidableEq, Repr

/-- The worker loop `while (taskQueue.length > 0)`: check the signal
before claiming, claim the next slot, process it, and continue; an observed
abort returns with the unclaimed remainder of the queue untouched.
`o i a` is what attempt `a` of slot `i` yields. -/
def workerLoop (o : Nat → Nat → AttemptResult) (abort : Nat → Bool) (total : Nat) :
    List Nat → Nat → Nat → Nat → WorkerOut
  | [], completed, n, t => ⟨[], completed, n, t, [], false⟩
  | idx :: rest, completed, n, t =>
    if abort t then ⟨[], completed, n, t, idx :: rest, true⟩
    else
      let s := processSlot (o idx) abort total completed n t
      if s.aborted then ⟨s.events, completed, s.ids, s.time, rest, true⟩
      else
        let completed1 := if s.inc then completed + 1 else completed
        let out := workerLoop o abort total rest completed1 s.ids s.time
        ⟨s.events ++ out.events, out.completed, out.ids, out.time, out.queue, out.aborted⟩

/-- The never-fired cancellation signal. -/
def neverAbort : Nat → Bool := fun _ => false

/-- A full batch of size `k` that is never cancelled: the queue
`[0, ..., k-1]` is drained with counter and clocks starting at zero; the
result is the emitted trace. -/
def runBatch (o : Nat → Nat → AttemptResult) (k : Nat) : List TraceItem :=
  (workerLoop o neverAbort k (List.range k) 0 0 0).events

/-- The `(completed, total)` arguments of the `onProgress` calls of a
trace. -/
def progressOf (tr : List TraceItem) : List (Nat × Nat) :=
  tr.filterMap fun e =>
    match e with
    | TraceItem.onProgress c t => some (c, t)
    | _ => none

/-- The images of the `onImage` calls of a trace. -/
def imagesOf (tr : List TraceItem) : List GeneratedImage :=
  tr.filterMap fun e =>
    match e with
    | TraceItem.onImage i => some i
    | _ => none

/-- Number of `onImage` calls. -/
def countImagesT (tr : List TraceItem) : Nat :=
  (imagesOf tr).length

/-- Number of `onImage` calls with an `error` status. -/
def countErrT (tr : List TraceItem) : Nat :=
  ((imagesOf tr).filter fun i => i.status = ImgStatus.error).length

/-- Number of `onImage` calls with a `success` status. -/
def countSuccT (tr : List TraceItem) : Nat :=
  ((imagesOf tr).filter fun i => i.status = ImgStatus.success).length

/-- The backoff delays of a trace, in milliseconds. -/
def waitsOf (tr : List TraceItem) : List Nat :=
  tr.filterMap fun e =>
    match e with
    | TraceItem.wait w => some w
    | _ => none

/-- The `onText` payloads of a trace. -/
def textsOf (tr : List TraceItem) : List String :=
  tr.filterMap fun e =>
    match e with
    | TraceItem.onText t => some t
    | _ => none

/-! ## Concrete provider behaviours used to exercise the model -/

/-- A response part carrying one inline PNG image. -/
def partImageA : RespPartRaw := ⟨some (some "image/png", "AAAA"), none⟩

/-- A second response part carrying one inline PNG image. -/
def partImageB : RespPartRaw := ⟨some (some "image/png", "BBBB"), none⟩

/-- A text-only response part. -/
def partTextA : RespPartRaw := ⟨none, some "a"⟩

/-- Another text-only response part. -/
def partTextB : RespPartRaw := ⟨none, some "b"⟩

/-- Every attempt of every slot returns one candidate with one image. -/
def oracleOneImage : Nat → Nat → AttemptResult := fun _ _ =>
  AttemptResult.ok [partImageA]

/-- Every attempt of every slot returns one candidate with two images. -/
def oracleTwoImages : Nat → Nat → AttemptResult := fun _ _ =>
  AttemptResult.ok [partImageA, partImageB]

/-- Every attempt returns a candidate with two text parts and no image. -/
def oracleTexts : Nat → AttemptResult := fun _ =>
  AttemptResult.ok [partTextA, partTextB]

/-- Every attempt fails with a transport error. -/
def oracleFail : Nat → AttemptResult := fun _ =>
  AttemptResult.httpError "boom"

/-- Attempts 0 and 1 fail with a transport error, attempt 2 succeeds. -/
def oracleFailTwice : Nat → AttemptResult := fun a =>
  if a < 2 then AttemptResult.httpError "boom" else AttemptResult.ok [partImageA]

/-- Every attempt is blocked by the safety filter. -/
def oracleSafety : Nat → AttemptResult := fun _ => AttemptResult.safetyBlocked

/-- A cancellation signal that has already fired. -/
def abortAll : Nat → Bool := fun _ => true

/-- A cancellation signal that fires after the first suspension point. -/
def abortAfterOne : Nat → Bool := fun t => decide (1 ≤ t)

/-! ## Trace bookkeeping lemmas -/

theorem progressOf_append (a b : List TraceItem) :
    progressOf (a ++ b) = progressOf a ++ progressOf b := by
  simp [progressOf, List.filterMap_append]

theorem imagesOf_append (a b : List TraceItem) :
    imagesOf (a ++ b) = imagesOf a ++ imagesOf b := by
  simp [imagesOf, List.filterMap_append]

theorem waitsOf_append (a b : List TraceItem) :
    waitsOf (a ++ b) = waitsOf a ++ waitsOf b := by
  simp [waitsOf, List.filterMap_append]

theorem textsOf_append (a b : List TraceItem) :
    textsOf (a ++ b) = textsOf a ++ textsOf b := by
  simp [textsOf, List.filterMap_append]

theorem countImagesT_append (a b : List TraceItem) :
    countImagesT (a ++ b) = countImagesT a + countImagesT b := by
  simp [countImagesT, imagesOf_append]

theorem countErrT_append (a b : List TraceItem) :
    countErrT (a ++ b) = countErrT a + countErrT b := by
  simp [countErrT, imagesOf_append]

theorem countSuccT_append (a b : List TraceItem) :
    countSuccT (a ++ b) = countSuccT a + countSuccT b := by
  simp [countSuccT, imagesOf_append]

theorem progressOf_cons_image (i : GeneratedImage) (l : List TraceItem) :
    progressOf (TraceItem.onImage i :: l) = progressOf l := rfl

theorem progressOf_cons_text (t : String) (l : List TraceItem) :
    progressOf (TraceItem.onText t :: l) = progressOf l := rfl

theorem progressOf_cons_wait (w : Nat) (l : List TraceItem) :
    progressOf (TraceItem.wait w :: l) = progressOf l := rfl

theorem progressOf_cons_progress (c t : Nat) (l : List TraceItem) :
    progressOf (TraceItem.onProgress c t :: l) = (c, t) :: progressOf l := rfl

theorem imagesOf_cons_image (i : GeneratedImage) (l : List TraceItem) :
    imagesOf (TraceItem.onImage i :: l) = i :: imagesOf l := rfl

theorem imagesOf_cons_text (t : String) (l : List TraceItem) :
    imagesOf (TraceItem.onText t :: l) = imagesOf l := rfl

theorem imagesOf_cons_wait (w : Nat) (l : List TraceItem) :
    imagesOf (TraceItem.wait w :: l) = imagesOf l := rfl

theorem imagesOf_cons_progress (c t : Nat) (l : List TraceItem) :
    imagesOf (TraceItem.onProgress c t :: l) = imagesOf l := rfl

theorem waitsOf_cons_image (i : GeneratedImage) (l : List TraceItem) :
    waitsOf (TraceItem.onImage i :: l) = waitsOf l := rfl

theorem waitsOf_cons_text (t : String) (l : List TraceItem) :
    waitsOf (TraceItem.onText t :: l) = waitsOf l := rfl

theorem waitsOf_cons_wait (w : Nat) (l : List TraceItem) :
    waitsOf (TraceItem.wait w :: l) = w :: waitsOf l := rfl

theorem waitsOf_cons_progress (c t : Nat) (l : List TraceItem) :
    waitsOf (TraceItem.onProgress c t :: l) = waitsOf l := rfl

theorem textsOf_cons_image (i : GeneratedImage) (l : List TraceItem) :
    textsOf (TraceItem.onImage i :: l) = textsOf l := rfl

theorem textsOf_cons_text (t : String) (l : List TraceItem) :
    textsOf (TraceItem.onText t :: l) = t :: textsOf l := rfl

theorem textsOf_cons_wait (w : Nat) (l : List TraceItem) :
    textsOf (TraceItem.wait w :: l) = textsOf l := rfl

theorem textsOf_cons_progress (c t : Nat) (l : List TraceItem) :
    textsOf (TraceItem.onProgress c t :: l) = textsOf l := rfl

theorem progressOf_nil : progressOf [] = [] := rfl

theorem imagesOf_nil : imagesOf [] = [] := rfl

theorem waitsOf_nil : waitsOf [] = [] := rfl

theorem textsOf_nil : textsOf [] = [] := rfl

theorem countImagesT_nil : countImagesT [] = 0 := rfl

theorem countErrT_nil : countErrT [] = 0 := rfl

theorem countSuccT_nil : countSuccT [] = 0 := rfl

theorem progressOf_textItems (o : Option String) :
    progressOf ((o.map TraceItem.onText).toList) = [] := by
  cases o <;> rfl

theorem imagesOf_textItems (o : Option String) :
    imagesOf ((o.map TraceItem.onText).toList) = [] := by
  cases o <;> rfl

theorem waitsOf_textItems (o : Option String) :
    waitsOf ((o.map TraceItem.onText).toList) = [] := by
  cases o <;> rfl

theorem textsOf_textItems (o : Option String) :
    textsOf ((o.map TraceItem.onText).toList) = o.toList := by
  cases o <;> rfl

/-! ## Part-loop lemmas -/

theorem processParts_found (ps : List RespPartRaw) (n : Nat) :
    (processParts ps n).found = ps.any isImagePartRaw := by
  induction ps generalizing n with
  | nil => rfl
  | cons p rest ih =>
    simp only [processParts, List.any_cons]
    cases hp : p.inlineData with
    | none => simp [isImagePartRaw, hp, ih]
    | some md =>
      obtain ⟨m, d⟩ := md
      by_cases hd : d = "" <;> simp [isImagePartRaw, hp, hd, ih]

theorem processParts_progress (ps : List RespPartRaw) (n : Nat) :
    progressOf (processParts ps n).events = [] := by
  induction ps generalizing n with
  | nil => rfl
  | cons p rest ih =>
    simp only [processParts]
    cases hp : p.inlineData with
    | none => simp [progressOf_append, progressOf_textItems, ih]
    | some md =>
      obtain ⟨m, d⟩ := md
      by_cases hd : d = ""
      · simp [hd, progressOf_append, progressOf_textItems, ih]
      · simp [hd, progressOf_cons_image, ih]

theorem processParts_waits (ps : List RespPartRaw) (n : Nat) :
    waitsOf (processParts ps n).events = [] := by
  induction ps generalizing n with
  | nil => rfl
  | cons p rest ih =>
    simp only [processParts]
    cases hp : p.inlineData with
    | none => simp [waitsOf_append, waitsOf_textItems, ih]
    | some md =>
      obtain ⟨m, d⟩ := md
      by_cases hd : d = ""
      · simp [hd, waitsOf_append, waitsOf_textItems, ih]
      · simp [hd, waitsOf_cons_image, ih]

theorem countImagesT_textItems (o : Option String) :
    countImagesT ((o.map TraceItem.onText).toList) = 0 := by
  cases o <;> rfl

theorem processParts_countImages (ps : List RespPartRaw) (n : Nat) :
    countImagesT (processParts ps n).events = ps.countP isImagePartRaw := by
  induction ps generalizing n with
  | nil => rfl
  | cons p rest ih =>
    simp only [processParts, List.countP_cons]
    cases hp : p.inlineData with
    | none =>
      have himg : isImagePartRaw p = false := by simp [isImagePartRaw, hp]
      simp [countImagesT_append, countImagesT_textItems, himg, ih]
    | some md =>
      obtain ⟨m, d⟩ := md
      by_cases hd : d = ""
      · have himg : isImagePartRaw p = false := by simp [isImagePartRaw, hp, hd]
        simp [hd, countImagesT_append, countImagesT_textItems, himg, ih]
      · have himg : isImagePartRaw p = true := by simp [isImagePartRaw, hp, hd]
        have hcons :
            countImagesT (TraceItem.onImage (partImage m d n) :: (processParts rest (n + 1)).events) =
              countImagesT (processParts rest (n + 1)).events + 1 := by
          simp [countImagesT, imagesOf_cons_image]
        simp [hd, hcons, himg, ih]

theorem countErrT_textItems (o : Option String) :
    countErrT ((o.map TraceItem.onText).toList) = 0 := by
  cases o <;> rfl

theorem processParts_countErr (ps : List RespPartRaw) (n : Nat) :
    countErrT (processParts ps n).events = 0 := by
  induction ps generalizing n with
  | nil => rfl
  | cons p rest ih =>
    simp only [processParts]
    cases hp : p.inlineData with
    | none => simp [countErrT_append, countErrT_textItems, ih]
    | some md =>
      obtain ⟨m, d⟩ := md
      by_cases hd : d = ""
      · simp [hd, countErrT_append, countErrT_textItems, ih]
      · have hcons :
            countErrT (TraceItem.onImage (partImage m d n) :: (processParts rest (n + 1)).events) =
              countErrT (processParts rest (n + 1)).events := by
          simp [countErrT, imagesOf_cons_image, partImage]
        simp [hd, hcons, ih]

theorem processParts_texts (ps : List RespPartRaw) (n : Nat) :
    textsOf (processParts ps n).events = ps.filterMap partTextOf := by
  induction ps generalizing n with
  | nil => rfl
  | cons p rest ih =>
    simp only [processParts, List.filterMap_cons]
    cases hp : p.inlineData with
    | none =>
      cases ht : partTextOf p <;>
        simp [textsOf_append, textsOf_textItems, textsOf_cons_text, ht, ih]
    | some md =>
      obtain ⟨m, d⟩ := md
      by_cases hd : d = ""
      · cases ht : partTextOf p <;>
          simp [hd, textsOf_append, textsOf_textItems, textsOf_cons_text, ht, ih]
      · have himg : partTextOf p = none := by simp [partTextOf, isImagePartRaw, hp, hd]
        simp [hd, himg, textsOf_cons_image, ih]

theorem processParts_textOnly (ps : List RespPartRaw) (n : Nat)
    (h : ps.any isImagePartRaw = false) :
    processParts ps n =
      ⟨(ps.filterMap partTextOf).map TraceItem.onText, n, false⟩ := by
  induction ps generalizing n with
  | nil => rfl
  | cons p rest ih =>
    simp only [List.any_cons, Bool.or_eq_false_iff] at h
    obtain ⟨hp1, hrest⟩ := h
    simp only [processParts, List.filterMap_cons]
    cases hp : p.inlineData with
    | none =>
      cases ht : partTextOf p <;> simp [ih _ hrest, ht, Option.toList]
    | some md =>
      obtain ⟨m, d⟩ := md
      have hd : d = "" := by
        by_contra hne
        simp [isImagePartRaw, hp, hne] at hp1
      subst hd
      cases ht : partTextOf p <;> simp [ih _ hrest, ht, Option.toList]

/-! ## Attempt lemmas -/

theorem attemptStep_found (r : AttemptResult) (n : Nat) :
    (attemptStep r n).found = attemptFound r := by
  cases r <;> first | rfl | exact processParts_found _ _

theorem attemptStep_progress (r : AttemptResult) (n : Nat) :
    progressOf (attemptStep r n).events = [] := by
  cases r <;> first | rfl | exact processParts_progress _ _

theorem attemptStep_waits (r : AttemptResult) (n : Nat) :
    waitsOf (attemptStep r n).events = [] := by
  cases r <;> first | rfl | exact processParts_waits _ _

theorem attemptStep_countImages (r : AttemptResult) (n : Nat) :
    countImagesT (attemptStep r n).events = imgCountR r := by
  cases r <;> first | rfl | exact processParts_countImages _ _

theorem attemptStep_countErr (r : AttemptResult) (n : Nat) :
    countErrT (attemptStep r n).events = 0 := by
  cases r <;> first | rfl | exact processParts_countErr _ _

theorem attemptStep_texts (r : AttemptResult) (n : Nat) :
    textsOf (attemptStep r n).events = attemptTexts r := by
  cases r <;> first | rfl | exact processParts_texts _ _

theorem attemptFound_eq_false_of_countImages (r : AttemptResult)
    (h : attemptFound r = false) : imgCountR r = 0 := by
  cases r with
  | ok parts =>
    simp only [attemptFound, List.any_eq_true] at h
    simp only [imgCountR, List.countP_eq_zero]
    intro a ha
    by_contra hc
    exact absurd (List.any_eq_true.mpr ⟨a, ha, by simpa using hc⟩) (by simp [h])
  | noCandidate => rfl
  | safetyBlocked => rfl
  | noContentParts => rfl
  | httpError msg => rfl

theorem imgCountR_pos_of_found (r : AttemptResult)
    (h : attemptFound r = true) : 1 ≤ imgCountR r := by
  cases r with
  | ok parts =>
    simp only [attemptFound, List.any_eq_true] at h
    obtain ⟨a, ha, hpa⟩ := h
    have : 0 < parts.countP isImagePartRaw := List.countP_pos_iff.mpr ⟨a, ha, hpa⟩
    simpa [imgCountR] using this
  | noCandidate => simp [attemptFound] at h
  | safetyBlocked => simp [attemptFound] at h
  | noContentParts => simp [attemptFound] at h
  | httpError msg => simp [attemptFound] at h

/-! ## Retry-loop lemmas -/

theorem retryLoop_zero (o : Nat → AttemptResult) (abort : Nat → Bool)
    (attempt n t made : Nat) :
    retryLoop o abort 0 attempt n t made = ⟨[], RetryExit.exhausted, n, t, made⟩ := rfl

theorem retryLoop_succ_exhausted (o : Nat → AttemptResult) (abort : Nat → Bool)
    (f attempt n t made : Nat) (h1 : attempt > MAX_RETRIES) :
    retryLoop o abort (f + 1) attempt n t made = ⟨[], RetryExit.exhausted, n, t, made⟩ := by
  simp [retryLoop, h1]

theorem retryLoop_succ_aborted (o : Nat → AttemptResult) (abort : Nat → Bool)
    (f attempt n t made : Nat) (h1 : ¬ attempt > MAX_RETRIES) (hab : abort t = true) :
    retryLoop o abort (f + 1) attempt n t made = ⟨[], RetryExit.aborted, n, t, made⟩ := by
  simp [retryLoop, h1, hab]

theorem retryLoop_succ_found (o : Nat → AttemptResult) (abort : Nat → Bool)
    (f attempt n t made : Nat) (h1 : ¬ attempt > MAX_RETRIES) (hab : abort t = false)
    (h2 : (attemptStep (o attempt) n).found = true) :
    retryLoop o abort (f + 1) attempt n t made =
      ⟨(attemptStep (o attempt) n).events, RetryExit.succeeded,
        (attemptStep (o attempt) n).ids, t + 1, made + 1⟩ := by
  simp [retryLoop, h1, hab, h2]

theorem retryLoop_succ_fail_wait (o : Nat → AttemptResult) (abort : Nat → Bool)
    (f attempt n t made : Nat) (h1 : ¬ attempt > MAX_RETRIES) (hab : abort t = false)
    (h2 : (attemptStep (o attempt) n).found = false)
    (h3a : attempt + 1 ≤ MAX_RETRIES) (h3b : abort (t + 1) = false) :
    retryLoop o abort (f + 1) attempt n t made =
      ⟨(attemptStep (o attempt) n).events ++
          TraceItem.wait (1000 * 2 ^ attempt) ::
            (retryLoop o abort f (attempt + 1) (attemptStep (o attempt) n).ids
                (t + 2) (made + 1)).events,
        (retryLoop o abort f (attempt + 1) (attemptStep (o attempt) n).ids (t + 2) (made + 1)).exit,
        (retryLoop o abort f (attempt + 1) (attemptStep (o attempt) n).ids (t + 2) (made + 1)).ids,
        (retryLoop o abort f (attempt + 1) (attemptStep (o attempt) n).ids (t + 2) (made + 1)).time,
        (retryLoop o abort f (attempt + 1) (attemptStep (o attempt) n).ids
            (t + 2) (made + 1)).attempts⟩ := by
  simp [retryLoop, h1, hab, h2, h3a, h3b]

theorem retryLoop_succ_fail_nowait (o : Nat → AttemptResult) (abort : Nat → Bool)
    (f attempt n t made : Nat) (h1 : ¬ attempt > MAX_RETRIES) (hab : abort t = false)
    (h2 : (attemptStep (o attempt) n).found = false)
    (h3 : ¬ (attempt + 1 ≤ MAX_RETRIES ∧ abort (t + 1) = false)) :
    retryLoop o abort (f + 1) attempt n t made =
      ⟨(attemptStep (o attempt) n).events ++
          (retryLoop o abort f (attempt + 1) (attemptStep (o attempt) n).ids
              (t + 1) (made + 1)).events,
        (retryLoop o abort f (attempt + 1) (attemptStep (o attempt) n).ids (t + 1) (made + 1)).exit,
        (retryLoop o abort f (attempt + 1) (attemptStep (o attempt) n).ids (t + 1) (made + 1)).ids,
        (retryLoop o abort f (attempt + 1) (attemptStep (o attempt) n).ids (t + 1) (made + 1)).time,
        (retryLoop o abort f (attempt + 1) (attemptStep (o attempt) n).ids
            (t + 1) (made + 1)).attempts⟩ := by
  simp [retryLoop, h1, hab, h2, h3]

/-- Case split driver: any `fuel + 1` unfolding is one of the five shapes. -/
theorem retryLoop_cases (o : Nat → AttemptResult) (abort : Nat → Bool)
    (motive : RetryOut → Prop) (f attempt n t made : Nat)
    (c1 : attempt > MAX_RETRIES → motive ⟨[], RetryExit.exhausted, n, t, made⟩)
    (c2 : ¬ attempt > MAX_RETRIES → abort t = true →
      motive ⟨[], RetryExit.aborted, n, t, made⟩)
    (c3 : ¬ attempt > MAX_RETRIES → abort t = false →
      (attemptStep (o attempt) n).found = true →
      motive ⟨(attemptStep (o attempt) n).events, RetryExit.succeeded,
        (attemptStep (o attempt) n).ids, t + 1, made + 1⟩)
    (c4 : ¬ attempt > MAX_RETRIES → abort t = false →
      (attemptStep (o attempt) n).found = false →
      attempt + 1 ≤ MAX_RETRIES → abort (t + 1) = false →
      motive ⟨(attemptStep (o attempt) n).events ++
          TraceItem.wait (1000 * 2 ^ attempt) ::
            (retryLoop o abort f (attempt + 1) (attemptStep (o attempt) n).ids
                (t + 2) (made + 1)).events,
        (retryLoop o abort f (attempt + 1) (attemptStep (o attempt) n).ids (t + 2) (made + 1)).exit,
        (retryLoop o abort f (attempt + 1) (attemptStep (o attempt) n).ids (t + 2) (made + 1)).ids,
        (retryLoop o abort f (attempt + 1) (attemptStep (o attempt) n).ids (t + 2) (made + 1)).time,
        (retryLoop o abort f (attempt + 1) (attemptStep (o attempt) n).ids
            (t + 2) (made + 1)).attempts⟩)
    (c5 : ¬ attempt > MAX_RETRIES → abort t = false →
      (attemptStep (o attempt) n).found = false →
      ¬ (attempt + 1 ≤ MAX_RETRIES ∧ abort (t + 1) = false) →
      motive ⟨(attemptStep (o attempt) n).events ++
          (retryLoop o abort f (attempt + 1) (attemptStep (o attempt) n).ids
              (t + 1) (made + 1)).events,
        (retryLoop o abort f (attempt + 1) (attemptStep (o attempt) n).ids (t + 1) (made + 1)).exit,
        (retryLoop o abort f (attempt + 1) (attemptStep (o attempt) n).ids (t + 1) (made + 1)).ids,
        (retryLoop o abort f (attempt + 1) (attemptStep (o attempt) n).ids (t + 1) (made + 1)).time,
        (retryLoop o abort f (attempt + 1) (attemptStep (o attempt) n).ids
            (t + 1) (made + 1)).attempts⟩) :
    motive (retryLoop o abort (f + 1) attempt n t made) := by
  by_cases h1 : attempt > MAX_RETRIES
  · rw [retryLoop_succ_exhausted o abort f attempt n t made h1]; exact c1 h1
  · cases hab : abort t with
    | true =>
      rw [retryLoop_succ_aborted o abort f attempt n t made h1 hab]; exact c2 h1 hab
    | false =>
      cases h2 : (attemptStep (o attempt) n).found with
      | true =>
        rw [retryLoop_succ_found o abort f attempt n t made h1 hab h2]
        exact c3 h1 hab h2
      | false =>
        by_cases h3 : attempt + 1 ≤ MAX_RETRIES ∧ abort (t + 1) = false
        · rw [retryLoop_succ_fail_wait o abort f attempt n t made h1 hab h2 h3.1 h3.2]
          exact c4 h1 hab h2 h3.1 h3.2
        · rw [retryLoop_succ_fail_nowait o abort f attempt n t made h1 hab h2 h3]
          exact c5 h1 hab h2 h3

theorem retryLoop_exit_neverAbort (o : Nat → AttemptResult) :
    ∀ fuel attempt n t made,
      (retryLoop o neverAbort fuel attempt n t made).exit ≠ RetryExit.aborted := by
  intro fuel
  induction fuel with
  | zero => intro attempt n t made; rw [retryLoop_zero]; simp
  | succ f ih =>
    intro attempt n t made
    refine retryLoop_cases o neverAbort (fun r => r.exit ≠ RetryExit.aborted) f attempt n t made
      ?_ ?_ ?_ ?_ ?_ <;> intros <;> simp_all [neverAbort]

theorem retryLoop_attempts_le (o : Nat → AttemptResult) (abort : Nat → Bool) :
    ∀ fuel attempt n t made,
      (retryLoop o abort fuel attempt n t made).attempts ≤ made + fuel := by
  intro fuel
  induction fuel with
  | zero => intro attempt n t made; rw [retryLoop_zero]; simp
  | succ f ih =>
    intro attempt n t made
    refine retryLoop_cases o abort (fun r => r.attempts ≤ made + (f + 1)) f attempt n t made
      ?_ ?_ ?_ ?_ ?_ <;> intros <;> simp only
    · omega
    · omega
    · omega
    · have := ih (attempt + 1) (attemptStep (o attempt) n).ids (t + 2) (made + 1); omega
    · have := ih (attempt + 1) (attemptStep (o attempt) n).ids (t + 1) (made + 1); omega

theorem retryLoop_attempts_ge (o : Nat → AttemptResult) (abort : Nat → Bool) :
    ∀ fuel attempt n t made,
      made ≤ (retryLoop o abort fuel attempt n t made).attempts := by
  intro fuel
  induction fuel with
  | zero => intro attempt n t made; rw [retryLoop_zero]
  | succ f ih =>
    intro attempt n t made
    refine retryLoop_cases o abort (fun r => made ≤ r.attempts) f attempt n t made
      ?_ ?_ ?_ ?_ ?_ <;> intros <;> simp only
    · omega
    · omega
    · omega
    · have := ih (attempt + 1) (attemptStep (o attempt) n).ids (t + 2) (made + 1); omega
    · have := ih (attempt + 1) (attemptStep (o attempt) n).ids (t + 1) (made + 1); omega

theorem retryLoop_progress (o : Nat → AttemptResult) (abort : Nat → Bool) :
    ∀ fuel attempt n t made,
      progressOf (retryLoop o abort fuel attempt n t made).events = [] := by
  intro fuel
  induction fuel with
  | zero => intro attempt n t made; rw [retryLoop_zero]; rfl
  | succ f ih =>
    intro attempt n t made
    refine retryLoop_cases o abort (fun r => progressOf r.events = []) f attempt n t made
      ?_ ?_ ?_ ?_ ?_ <;> intros <;>
      simp [progressOf_nil, progressOf_append, progressOf_cons_wait, attemptStep_progress, ih]

theorem retryLoop_waits_nil (o : Nat → AttemptResult) (abort : Nat → Bool) :
    ∀ fuel attempt n t made, (attempt > MAX_RETRIES ∨ abort t = true) →
      waitsOf (retryLoop o abort fuel attempt n t made).events = [] := by
  intro fuel attempt n t made h
  cases fuel with
  | zero => rw [retryLoop_zero]; rfl
  | succ f =>
    by_cases h1 : attempt > MAX_RETRIES
    · rw [retryLoop_succ_exhausted o abort f attempt n t made h1]; rfl
    · have hab : abort t = true := by
        cases h with
        | inl h => exact absurd h h1
        | inr h => exact h
      rw [retryLoop_succ_aborted o abort f attempt n t made h1 hab]; rfl

theorem retryLoop_countErr (o : Nat → AttemptResult) (abort : Nat → Bool) :
    ∀ fuel attempt n t made,
      countErrT (retryLoop o abort fuel attempt n t made).events = 0 := by
  intro fuel
  induction fuel with
  | zero => intro attempt n t made; rw [retryLoop_zero]; rfl
  | succ f ih =>
    intro attempt n t made
    have hwc : ∀ (w : Nat) (l : List TraceItem),
        countErrT (TraceItem.wait w :: l) = countErrT l := by
      intro w l; simp [countErrT, imagesOf_cons_wait]
    refine retryLoop_cases o abort (fun r => countErrT r.events = 0) f attempt n t made
      ?_ ?_ ?_ ?_ ?_ <;> intros <;>
      simp [countErrT_append, countErrT_nil, hwc, attemptStep_countErr, ih]

theorem retryLoop_img_zero (o : Nat → AttemptResult) (abort : Nat → Bool) :
    ∀ fuel attempt n t made,
      (retryLoop o abort fuel attempt n t made).exit ≠ RetryExit.succeeded →
      countImagesT (retryLoop o abort fuel attempt n t made).events = 0 := by
  intro fuel
  induction fuel with
  | zero => intro attempt n t made _; rw [retryLoop_zero]; rfl
  | succ f ih =>
    intro attempt n t made
    have hwc : ∀ (w : Nat) (l : List TraceItem),
        countImagesT (TraceItem.wait w :: l) = countImagesT l := by
      intro w l; simp [countImagesT, imagesOf_cons_wait]
    refine retryLoop_cases o abort
      (fun r => r.exit ≠ RetryExit.succeeded → countImagesT r.events = 0) f attempt n t made
      ?_ ?_ ?_ ?_ ?_
    · intro _ _; rfl
    · intro _ _ _; rfl
    · intro _ _ _ h; simp at h
    · intro _ _ h2 _ _ hne
      have himg0 : countImagesT (attemptStep (o attempt) n).events = 0 := by
        rw [attemptStep_countImages]
        exact attemptFound_eq_false_of_countImages _ (by rw [← attemptStep_found (o attempt) n, h2])
      simp only at hne
      simp [countImagesT_append, himg0, hwc, ih _ _ _ _ hne]
    · intro _ _ h2 _ hne
      have himg0 : countImagesT (attemptStep (o attempt) n).events = 0 := by
        rw [attemptStep_countImages]
        exact attemptFound_eq_false_of_countImages _ (by rw [← attemptStep_found (o attempt) n, h2])
      simp only at hne
      simp [countImagesT_append, himg0, ih _ _ _ _ hne]

theorem retryLoop_img_succ (o : Nat → AttemptResult) (abort : Nat → Bool)
    (H : ∀ j, imgCountR (o j) ≤ 1) :
    ∀ fuel attempt n t made,
      countImagesT (retryLoop o abort fuel attempt n t made).events =
        if (retryLoop o abort fuel attempt n t made).exit = RetryExit.succeeded
        then 1 else 0 := by
  intro fuel
  induction fuel with
  | zero => intro attempt n t made; rw [retryLoop_zero]; rfl
  | succ f ih =>
    intro attempt n t made
    have hwc : ∀ (w : Nat) (l : List TraceItem),
        countImagesT (TraceItem.wait w :: l) = countImagesT l := by
      intro w l; simp [countImagesT, imagesOf_cons_wait]
    refine retryLoop_cases o abort
      (fun r => countImagesT r.events = if r.exit = RetryExit.succeeded then 1 else 0)
      f attempt n t made ?_ ?_ ?_ ?_ ?_
    · intro _; rfl
    · intro _ _; rfl
    · intro _ _ h2
      have hfound : attemptFound (o attempt) = true := by
        rw [← attemptStep_found (o attempt) n, h2]
      have h1le : 1 ≤ imgCountR (o attempt) := imgCountR_pos_of_found _ hfound
      have heq : countImagesT (attemptStep (o attempt) n).events = 1 := by
        rw [attemptStep_countImages]
        exact Nat.le_antisymm (H attempt) h1le
      simpa using heq
    · intro _ _ h2 _ _
      have himg0 : countImagesT (attemptStep (o attempt) n).events = 0 := by
        rw [attemptStep_countImages]
        exact attemptFound_eq_false_of_countImages _ (by rw [← attemptStep_found (o attempt) n, h2])
      simp [countImagesT_append, himg0, hwc, ih]
    · intro _ _ h2 _
      have himg0 : countImagesT (attemptStep (o attempt) n).events = 0 := by
        rw [attemptStep_countImages]
        exact attemptFound_eq_false_of_countImages _ (by rw [← attemptStep_found (o attempt) n, h2])
      simp [countImagesT_append, himg0, ih]

theorem retryLoop_abort_entry (o : Nat → AttemptResult) (abort : Nat → Bool)
    (fuel attempt n t made : Nat) (hle : attempt ≤ MAX_RETRIES) (hab : abort t = true) :
    retryLoop o abort (fuel + 1) attempt n t made = ⟨[], RetryExit.aborted, n, t, made⟩ :=
  retryLoop_succ_aborted o abort fuel attempt n t made (by omega) hab

theorem retryLoop_waits (o : Nat → AttemptResult) (abort : Nat → Bool) :
    ∀ fuel attempt n t made, ∃ w,
      waitsOf (retryLoop o abort fuel attempt n t made).events =
        (List.range' attempt w).map fun i => 1000 * 2 ^ i := by
  intro fuel
  induction fuel with
  | zero => intro attempt n t made; rw [retryLoop_zero]; exact ⟨0, rfl⟩
  | succ f ih =>
    intro attempt n t made
    refine retryLoop_cases o abort
      (fun r => ∃ w, waitsOf r.events = (List.range' attempt w).map fun i => 1000 * 2 ^ i)
      f attempt n t made ?_ ?_ ?_ ?_ ?_
    · intro _; exact ⟨0, rfl⟩
    · intro _ _; exact ⟨0, rfl⟩
    · intro _ _ _
      refine ⟨0, ?_⟩
      simp [attemptStep_waits]
    · intro _ _ _ _ _
      obtain ⟨w, hw⟩ := ih (attempt + 1) (attemptStep (o attempt) n).ids (t + 2) (made + 1)
      refine ⟨w + 1, ?_⟩
      simp [waitsOf_append, attemptStep_waits, waitsOf_cons_wait, hw, List.range'_succ]
    · intro _ _ _ h3
      have hdead : attempt + 1 > MAX_RETRIES ∨ abort (t + 1) = true := by
        by_cases hle : attempt + 1 ≤ MAX_RETRIES
        · cases habt : abort (t + 1) with
          | false => exact absurd ⟨hle, habt⟩ h3
          | true => exact Or.inr rfl
        · exact Or.inl (by omega)
      have hnil := retryLoop_waits_nil o abort f (attempt + 1)
        (attemptStep (o attempt) n).ids (t + 1) (made + 1) hdead
      refine ⟨0, ?_⟩
      simp [waitsOf_append, attemptStep_waits, hnil]

theorem retryLoop_blind (o1 o2 : Nat → AttemptResult) (abort : Nat → Bool)
    (h : ∀ j, attemptFound (o1 j) = attemptFound (o2 j)) :
    ∀ fuel attempt n1 n2 t made,
      (retryLoop o1 abort fuel attempt n1 t made).exit =
          (retryLoop o2 abort fuel attempt n2 t made).exit ∧
      (retryLoop o1 abort fuel attempt n1 t made).attempts =
          (retryLoop o2 abort fuel attempt n2 t made).attempts ∧
      (retryLoop o1 abort fuel attempt n1 t made).time =
          (retryLoop o2 abort fuel attempt n2 t made).time ∧
      waitsOf (retryLoop o1 abort fuel attempt n1 t made).events =
          waitsOf (retryLoop o2 abort fuel attempt n2 t made).events := by
  intro fuel
  induction fuel with
  | zero => intro attempt n1 n2 t made; rw [retryLoop_zero, retryLoop_zero]; exact ⟨rfl, rfl, rfl, rfl⟩
  | succ f ih =>
    intro attempt n1 n2 t made
    by_cases h1 : attempt > MAX_RETRIES
    · rw [retryLoop_succ_exhausted o1 abort f attempt n1 t made h1,
        retryLoop_succ_exhausted o2 abort f attempt n2 t made h1]
      exact ⟨rfl, rfl, rfl, rfl⟩
    · cases hab : abort t with
      | true =>
        rw [retryLoop_succ_aborted o1 abort f attempt n1 t made h1 hab,
          retryLoop_succ_aborted o2 abort f attempt n2 t made h1 hab]
        exact ⟨rfl, rfl, rfl, rfl⟩
      | false =>
        cases hf : (attemptStep (o1 attempt) n1).found with
        | true =>
          have hf2 : (attemptStep (o2 attempt) n2).found = true := by
            rw [attemptStep_found, ← h attempt, ← attemptStep_found (o1 attempt) n1, hf]
          rw [retryLoop_succ_found o1 abort f attempt n1 t made h1 hab hf,
            retryLoop_succ_found o2 abort f attempt n2 t made h1 hab hf2]
          exact ⟨rfl, rfl, rfl, by simp [attemptStep_waits]⟩
        | false =>
          have hf2 : (attemptStep (o2 attempt) n2).found = false := by
            rw [attemptStep_found, ← h attempt, ← attemptStep_found (o1 attempt) n1, hf]
          by_cases h3 : attempt + 1 ≤ MAX_RETRIES ∧ abort (t + 1) = false
          · rw [retryLoop_succ_fail_wait o1 abort f attempt n1 t made h1 hab hf h3.1 h3.2,
              retryLoop_succ_fail_wait o2 abort f attempt n2 t made h1 hab hf2 h3.1 h3.2]
            obtain ⟨e1, e2, e3, e4⟩ := ih (attempt + 1) (attemptStep (o1 attempt) n1).ids
              (attemptStep (o2 attempt) n2).ids (t + 2) (made + 1)
            exact ⟨e1, e2, e3, by
              simp [waitsOf_append, attemptStep_waits, waitsOf_cons_wait, e4]⟩
          · rw [retryLoop_succ_fail_nowait o1 abort f attempt n1 t made h1 hab hf h3,
              retryLoop_succ_fail_nowait o2 abort f attempt n2 t made h1 hab hf2 h3]
            obtain ⟨e1, e2, e3, e4⟩ := ih (attempt + 1) (attemptStep (o1 attempt) n1).ids
              (attemptStep (o2 attempt) n2).ids (t + 1) (made + 1)
            exact ⟨e1, e2, e3, by simp [waitsOf_append, attemptStep_waits, e4]⟩

theorem retryLoop_texts (o : Nat → AttemptResult) (abort : Nat → Bool) :
    ∀ fuel attempt n t made,
      textsOf (retryLoop o abort fuel attempt n t made).events =
        (List.range' attempt
            ((retryLoop o abort fuel attempt n t made).attempts - made)).flatMap
          fun j => attemptTexts (o j) := by
  intro fuel
  induction fuel with
  | zero => intro attempt n t made; rw [retryLoop_zero]; simp [textsOf_nil]
  | succ f ih =>
    intro attempt n t made
    refine retryLoop_cases o abort
      (fun r => textsOf r.events =
        (List.range' attempt (r.attempts - made)).flatMap fun j => attemptTexts (o j))
      f attempt n t made ?_ ?_ ?_ ?_ ?_
    · intro _; simp [textsOf_nil]
    · intro _ _; simp [textsOf_nil]
    · intro _ _ _
      simp [attemptStep_texts, List.range'_succ]
    · intro _ _ _ _ _
      have hge := retryLoop_attempts_ge o abort f (attempt + 1)
        (attemptStep (o attempt) n).ids (t + 2) (made + 1)
      have harith :
          (retryLoop o abort f (attempt + 1) (attemptStep (o attempt) n).ids
              (t + 2) (made + 1)).attempts - made =
            ((retryLoop o abort f (attempt + 1) (attemptStep (o attempt) n).ids
                (t + 2) (made + 1)).attempts - (made + 1)) + 1 := by omega
      simp only [textsOf_append, textsOf_cons_wait, attemptStep_texts, harith,
        List.range'_succ, List.flatMap_cons]
      rw [ih]
    · intro _ _ _ _
      have hge := retryLoop_attempts_ge o abort f (attempt + 1)
        (attemptStep (o attempt) n).ids (t + 1) (made + 1)
      have harith :
          (retryLoop o abort f (attempt + 1) (attemptStep (o attempt) n).ids
              (t + 1) (made + 1)).attempts - made =
            ((retryLoop o abort f (attempt + 1) (attemptStep (o attempt) n).ids
                (t + 1) (made + 1)).attempts - (made + 1)) + 1 := by omega
      simp only [textsOf_append, attemptStep_texts, harith, List.range'_succ,
        List.flatMap_cons]
      rw [ih]

theorem retryLoop_all_fail (o : Nat → AttemptResult) :
    ∀ fuel attempt n t made,
      (∀ j, attempt ≤ j → j ≤ MAX_RETRIES → attemptFound (o j) = false) →
      attempt + fuel = MAX_RETRIES + 1 →
      (retryLoop o neverAbort fuel attempt n t made).exit = RetryExit.exhausted ∧
      (retryLoop o neverAbort fuel attempt n t made).attempts = made + fuel := by
  intro fuel
  induction fuel with
  | zero => intro attempt n t made _ _; rw [retryLoop_zero]; exact ⟨rfl, rfl⟩
  | succ f ih =>
    intro attempt n t made hall hsum
    have h1 : ¬ attempt > MAX_RETRIES := by omega
    have hab : neverAbort t = false := rfl
    have hf : (attemptStep (o attempt) n).found = false := by
      rw [attemptStep_found]
      exact hall attempt (Nat.le_refl _) (by omega)
    have hall' : ∀ j, attempt + 1 ≤ j → j ≤ MAX_RETRIES → attemptFound (o j) = false :=
      fun j hj hj2 => hall j (by omega) hj2
    by_cases h3 : attempt + 1 ≤ MAX_RETRIES ∧ neverAbort (t + 1) = false
    · rw [retryLoop_succ_fail_wait o neverAbort f attempt n t made h1 hab hf h3.1 h3.2]
      obtain ⟨e1, e2⟩ := ih (attempt + 1) (attemptStep (o attempt) n).ids (t + 2) (made + 1)
        hall' (by omega)
      exact ⟨e1, by rw [e2]; omega⟩
    · rw [retryLoop_succ_fail_nowait o neverAbort f attempt n t made h1 hab hf h3]
      obtain ⟨e1, e2⟩ := ih (attempt + 1) (attemptStep (o attempt) n).ids (t + 1) (made + 1)
        hall' (by omega)
      exact ⟨e1, by rw [e2]; omega⟩

/-! ## Slot and worker-loop lemmas -/

theorem countSuccT_le (tr : List TraceItem) : countSuccT tr ≤ countImagesT tr :=
  List.length_filter_le _ _

theorem processSlot_neverAbort_eq (o : Nat → AttemptResult) (total completed n t : Nat) :
    processSlot o neverAbort total completed n t =
      ⟨(retryLoop o neverAbort (MAX_RETRIES + 1) 0 n t 0).events ++
          (if (retryLoop o neverAbort (MAX_RETRIES + 1) 0 n t 0).exit = RetryExit.succeeded
            then []
            else [TraceItem.onImage
              (errorImage (retryLoop o neverAbort (MAX_RETRIES + 1) 0 n t 0).ids)]) ++
          [TraceItem.onProgress (completed + 1) total],
        (if (retryLoop o neverAbort (MAX_RETRIES + 1) 0 n t 0).exit = RetryExit.succeeded
          then (retryLoop o neverAbort (MAX_RETRIES + 1) 0 n t 0).ids
          else (retryLoop o neverAbort (MAX_RETRIES + 1) 0 n t 0).ids + 1),
        (retryLoop o neverAbort (MAX_RETRIES + 1) 0 n t 0).time, false, true⟩ := by
  have hne := retryLoop_exit_neverAbort o (MAX_RETRIES + 1) 0 n t 0
  by_cases hs : (retryLoop o neverAbort (MAX_RETRIES + 1) 0 n t 0).exit = RetryExit.succeeded <;>
    simp [processSlot, hne, hs, neverAbort]

theorem processSlot_neverAbort_progress (o : Nat → AttemptResult) (total completed n t : Nat) :
    progressOf (processSlot o neverAbort total completed n t).events =
      [(completed + 1, total)] := by
  rw [processSlot_neverAbort_eq]
  by_cases hs : (retryLoop o neverAbort (MAX_RETRIES + 1) 0 n t 0).exit = RetryExit.succeeded <;>
    simp [hs, progressOf_append, retryLoop_progress, progressOf_cons_image,
      progressOf_cons_progress, progressOf_nil]

theorem processSlot_neverAbort_images (o : Nat → AttemptResult) (total completed n t : Nat)
    (H : ∀ j, imgCountR (o j) ≤ 1) :
    countImagesT (processSlot o neverAbort total completed n t).events = 1 := by
  rw [processSlot_neverAbort_eq]
  have himg := retryLoop_img_succ o neverAbort H (MAX_RETRIES + 1) 0 n t 0
  have hlit1 : countImagesT [TraceItem.onProgress (completed + 1) total] = 0 := rfl
  have hlit2 : ∀ m : Nat, countImagesT
      [TraceItem.onImage (errorImage m), TraceItem.onProgress (completed + 1) total] = 1 :=
    fun m => rfl
  by_cases hs : (retryLoop o neverAbort (MAX_RETRIES + 1) 0 n t 0).exit = RetryExit.succeeded <;>
    simp only [hs, if_pos, if_neg, if_true, if_false, ite_true, ite_false] at himg ⊢ <;>
    simp [countImagesT_append, himg, hlit1, hlit2]

theorem processSlot_allfail (o : Nat → AttemptResult) (total completed n t : Nat)
    (hall : ∀ j, j ≤ MAX_RETRIES → attemptFound (o j) = false) :
    countErrT (processSlot o neverAbort total completed n t).events = 1 ∧
    countSuccT (processSlot o neverAbort total completed n t).events = 0 ∧
    progressOf (processSlot o neverAbort total completed n t).events =
      [(completed + 1, total)] ∧
    (retryLoop o neverAbort (MAX_RETRIES + 1) 0 n t 0).exit = RetryExit.exhausted ∧
    (retryLoop o neverAbort (MAX_RETRIES + 1) 0 n t 0).attempts = MAX_RETRIES + 1 := by
  obtain ⟨hexit, hatt⟩ := retryLoop_all_fail o (MAX_RETRIES + 1) 0 n t 0
    (fun j _ hj2 => hall j hj2) (by omega)
  have hs : (retryLoop o neverAbort (MAX_RETRIES + 1) 0 n t 0).exit ≠ RetryExit.succeeded := by
    rw [hexit]; simp
  have himg0 := retryLoop_img_zero o neverAbort (MAX_RETRIES + 1) 0 n t 0 hs
  have hsucc0 : countSuccT (retryLoop o neverAbort (MAX_RETRIES + 1) 0 n t 0).events = 0 :=
    Nat.le_zero.mp (le_trans (countSuccT_le _) (le_of_eq himg0))
  have herr1 : ∀ m : Nat, countErrT
      [TraceItem.onImage (errorImage m), TraceItem.onProgress (completed + 1) total] = 1 :=
    fun m => rfl
  have hsc1 : ∀ m : Nat, countSuccT
      [TraceItem.onImage (errorImage m), TraceItem.onProgress (completed + 1) total] = 0 :=
    fun m => rfl
  refine ⟨?_, ?_, processSlot_neverAbort_progress o total completed n t, hexit, by
    rw [hatt]; omega⟩
  · rw [processSlot_neverAbort_eq]
    simp only [hs, if_neg, ite_false]
    simp [countErrT_append, retryLoop_countErr, herr1]
  · rw [processSlot_neverAbort_eq]
    simp only [hs, if_neg, ite_false]
    simp [countSuccT_append, hsucc0, hsc1]

theorem processSlot_aborted_eq (o : Nat → AttemptResult) (abort : Nat → Bool)
    (total completed n t : Nat)
    (h : (retryLoop o abort (MAX_RETRIES + 1) 0 n t 0).exit = RetryExit.aborted) :
    processSlot o abort total completed n t =
      ⟨(retryLoop o abort (MAX_RETRIES + 1) 0 n t 0).events,
        (retryLoop o abort (MAX_RETRIES + 1) 0 n t 0).ids,
        (retryLoop o abort (MAX_RETRIES + 1) 0 n t 0).time, true, false⟩ := by
  simp [processSlot, h]

theorem workerLoop_neverAbort_shape (o : Nat → Nat → AttemptResult) (total : Nat) :
    ∀ (q : List Nat) (completed n t : Nat),
      progressOf (workerLoop o neverAbort total q completed n t).events =
        (List.range' (completed + 1) q.length).map (fun i => (i, total)) ∧
      (workerLoop o neverAbort total q completed n t).queue = [] ∧
      (workerLoop o neverAbort total q completed n t).aborted = false ∧
      (workerLoop o neverAbort total q completed n t).completed = completed + q.length := by
  intro q
  induction q with
  | nil => intro completed n t; simp [workerLoop, progressOf_nil]
  | cons idx rest ih =>
    intro completed n t
    have hslot := processSlot_neverAbort_eq (o idx) total completed n t
    have hab : (processSlot (o idx) neverAbort total completed n t).aborted = false := by
      rw [hslot]
    have hinc : (processSlot (o idx) neverAbort total completed n t).inc = true := by
      rw [hslot]
    have hprog := processSlot_neverAbort_progress (o idx) total completed n t
    simp only [workerLoop, neverAbort, Bool.false_eq_true, if_false, hab, hinc, if_true]
    obtain ⟨p1, p2, p3, p4⟩ := ih (completed + 1)
      (processSlot (o idx) neverAbort total completed n t).ids
      (processSlot (o idx) neverAbort total completed n t).time
    refine ⟨?_, p2, p3, by simp only [p4, List.length_cons]; omega⟩
    simp [progressOf_append, hprog, p1, List.range'_succ]

theorem workerLoop_neverAbort_images (o : Nat → Nat → AttemptResult) (total : Nat)
    (H : ∀ i a, imgCountR (o i a) ≤ 1) :
    ∀ (q : List Nat) (completed n t : Nat),
      countImagesT (workerLoop o neverAbort total q completed n t).events = q.length := by
  intro q
  induction q with
  | nil => intro completed n t; simp [workerLoop, countImagesT_nil]
  | cons idx rest ih =>
    intro completed n t
    have hslot := processSlot_neverAbort_eq (o idx) total completed n t
    have hab : (processSlot (o idx) neverAbort total completed n t).aborted = false := by
      rw [hslot]
    have hinc : (processSlot (o idx) neverAbort total completed n t).inc = true := by
      rw [hslot]
    have himg := processSlot_neverAbort_images (o idx) total completed n t (H idx)
    simp only [workerLoop, neverAbort, Bool.false_eq_true, if_false, hab, hinc, if_true]
    simp [countImagesT_append, himg, ih]
    omega

/-! ## Auxiliary range lemmas -/

theorem range'_pairwise_lt : ∀ (len s : Nat), List.Pairwise (· < ·) (List.range' s len) := by
  intro len
  induction len with
  | zero => intro s; simp
  | succ m ih =>
    intro s
    rw [List.range'_succ]
    refine List.pairwise_cons.mpr ⟨?_, ih (s + 1)⟩
    intro x hx
    have := (List.mem_range'_1.mp hx).1
    omega

theorem range'_getLast? (s len : Nat) (h : 1 ≤ len) :
    (List.range' s len).getLast? = some (s + len - 1) := by
  obtain ⟨m, rfl⟩ : ∃ m, len = m + 1 := ⟨len - 1, by omega⟩
  rw [List.range'_concat, List.getLast?_concat]
  congr 1
  omega

/-! ## Claims about the worker-pool dispatcher -/

/-- C1 (counterexample): in a never-cancelled batch of size 1 whose
provider response carries two image parts, the single task slot emits two
success-status `onImage` terminal outcomes — not exactly `k = 1` terminal
outcomes, one per task slot, as the claim states (the progress part of the
claim still holds here). -/
theorem claim_C1_counterexample :
    countImagesT (runBatch oracleTwoImages 1) = 2 ∧
    countSuccT (runBatch oracleTwoImages 1) = 2 ∧
    progressOf (runBatch oracleTwoImages 1) = [(1, 1)] := by
  refine ⟨?_, ?_, ?_⟩ <;> decide

/-- C1 (amended): for every batch size `k` in 1..20, a never-cancelled run
emits exactly `k` `onProgress` calls whose `completed` values are strictly
increasing and end at `k`, each call carrying `total = k`; and provided
every provider response carries at most one image part, exactly `k`
`onImage` terminal outcomes, one per task slot (a response with several
image parts makes its slot emit one `onImage` per part instead). -/
theorem claim_C1_batch_events (o : Nat → Nat → AttemptResult) (k : Nat)
    (hk1 : 1 ≤ k) (hk2 : k ≤ 20)
    (H : ∀ i a, imgCountR (o i a) ≤ 1) :
    progressOf (runBatch o k) = (List.range' 1 k).map (fun i => (i, k)) ∧
    (progressOf (runBatch o k)).length = k ∧
    List.Pairwise (· < ·) ((progressOf (runBatch o k)).map Prod.fst) ∧
    ((progressOf (runBatch o k)).map Prod.fst).getLast? = some k ∧
    (∀ p ∈ progressOf (runBatch o k), p.2 = k) ∧
    countImagesT (runBatch o k) = k := by
  obtain ⟨p1, -, -, -⟩ := workerLoop_neverAbort_shape o k (List.range k) 0 0 0
  have hlen : (List.range k).length = k := List.length_range k
  have hmain : progressOf (runBatch o k) = (List.range' 1 k).map (fun i => (i, k)) := by
    simpa [runBatch, hlen] using p1
  have hfst : (progressOf (runBatch o k)).map Prod.fst = List.range' 1 k := by
    rw [hmain, List.map_map]
    have hcomp : (Prod.fst ∘ fun i : Nat => (i, k)) = id := rfl
    rw [hcomp, List.map_id]
  refine ⟨hmain, ?_, ?_, ?_, ?_, ?_⟩
  · simp [hmain]
  · rw [hfst]; exact range'_pairwise_lt k 1
  · rw [hfst, range'_getLast? 1 k hk1]
    congr 1
    omega
  · intro p hp
    rw [hmain] at hp
    obtain ⟨i, hi, rfl⟩ := List.mem_map.mp hp
    rfl
  · have := workerLoop_neverAbort_images o k H (List.range k) 0 0 0
    simpa [runBatch, hlen] using this

/-- C1 witness: a concrete one-image-per-response batch of size 3. -/
theorem claim_C1_witness :
    progressOf (runBatch oracleOneImage 3) = [(1, 3), (2, 3), (3, 3)] ∧
    countImagesT (runBatch oracleOneImage 3) = 3 := by
  have h := claim_C1_batch_events oracleOneImage 3 (by decide) (by decide)
    (fun i a => by
      show imgCountR (AttemptResult.ok [partImageA]) ≤ 1
      decide)
  refine ⟨?_, h.2.2.2.2.2⟩
  rw [h.1]; decide

/-- C2: per slot the retry loop makes at most `MAX_RETRIES + 1 = 4`
attempts; the backoff delays form the geometric prefix whose n-th element
(counting retries from 1) is `1000 * 2 ^ (n - 1)` milliseconds; the retry
schedule (exit, attempt count, delays) is blind to the failure kind,
depending only on which attempts succeed; and a cancellation observed at a
retry-loop entry short-circuits at once: no wait, no further attempt, no
event. -/
theorem claim_C2_retry_policy :
    (∀ (o : Nat → AttemptResult) (abort : Nat → Bool) (n t : Nat),
      (retryLoop o abort (MAX_RETRIES + 1) 0 n t 0).attempts ≤ MAX_RETRIES + 1) ∧
    (∀ (o : Nat → AttemptResult) (abort : Nat → Bool) (n t : Nat), ∃ w,
      waitsOf (retryLoop o abort (MAX_RETRIES + 1) 0 n t 0).events =
        (List.range' 0 w).map fun i => 1000 * 2 ^ i) ∧
    (∀ (o1 o2 : Nat → AttemptResult) (abort : Nat → Bool) (n1 n2 t : Nat),
      (∀ j, attemptFound (o1 j) = attemptFound (o2 j)) →
      (retryLoop o1 abort (MAX_RETRIES + 1) 0 n1 t 0).exit =
          (retryLoop o2 abort (MAX_RETRIES + 1) 0 n2 t 0).exit ∧
      (retryLoop o1 abort (MAX_RETRIES + 1) 0 n1 t 0).attempts =
          (retryLoop o2 abort (MAX_RETRIES + 1) 0 n2 t 0).attempts ∧
      waitsOf (retryLoop o1 abort (MAX_RETRIES + 1) 0 n1 t 0).events =
          waitsOf (retryLoop o2 abort (MAX_RETRIES + 1) 0 n2 t 0).events) ∧
    (∀ (o : Nat → AttemptResult) (abort : Nat → Bool) (fuel attempt n t made : Nat),
      attempt ≤ MAX_RETRIES → abort t = true →
      retryLoop o abort (fuel + 1) attempt n t made =
        ⟨[], RetryExit.aborted, n, t, made⟩) := by
  refine ⟨?_, ?_, ?_, ?_⟩
  · intro o abort n t
    simpa using retryLoop_attempts_le o abort (MAX_RETRIES + 1) 0 n t 0
  · intro o abort n t
    exact retryLoop_waits o abort (MAX_RETRIES + 1) 0 n t 0
  · intro o1 o2 abort n1 n2 t h
    obtain ⟨e1, e2, -, e4⟩ := retryLoop_blind o1 o2 abort h (MAX_RETRIES + 1) 0 n1 n2 t 0
    exact ⟨e1, e2, e4⟩
  · intro o abort fuel attempt n t made h1 h2
    exact retryLoop_abort_entry o abort fuel attempt n t made h1 h2

/-- C2 witness: the fail-fail-succeed stub waits 1000ms then 2000ms and
succeeds on the third attempt; a safety block and a transport error follow
the same schedule; a fired signal short-circuits the loop. -/
theorem claim_C2_witness :
    (retryLoop oracleFailTwice neverAbort (MAX_RETRIES + 1) 0 0 0 0).attempts ≤
        MAX_RETRIES + 1 ∧
    (∃ w, waitsOf (retryLoop oracleFailTwice neverAbort (MAX_RETRIES + 1) 0 0 0 0).events =
      (List.range' 0 w).map fun i => 1000 * 2 ^ i) ∧
    (retryLoop oracleSafety neverAbort (MAX_RETRIES + 1) 0 0 0 0).exit =
        (retryLoop oracleFail neverAbort (MAX_RETRIES + 1) 0 5 0 0).exit ∧
    retryLoop oracleFail abortAll (3 + 1) 0 0 0 0 = ⟨[], RetryExit.aborted, 0, 0, 0⟩ ∧
    waitsOf (retryLoop oracleFailTwice neverAbort (MAX_RETRIES + 1) 0 0 0 0).events =
        [1000, 2000] ∧
    (retryLoop oracleFailTwice neverAbort (MAX_RETRIES + 1) 0 0 0 0).attempts = 3 ∧
    (retryLoop oracleFailTwice neverAbort (MAX_RETRIES + 1) 0 0 0 0).exit =
        RetryExit.succeeded := by
  refine ⟨claim_C2_retry_policy.1 oracleFailTwice neverAbort 0 0,
    claim_C2_retry_policy.2.1 oracleFailTwice neverAbort 0 0,
    (claim_C2_retry_policy.2.2.1 oracleSafety oracleFail neverAbort 0 5 0 fun j => rfl).1,
    claim_C2_retry_policy.2.2.2 oracleFail abortAll 3 0 0 0 0 (by decide) rfl,
    ?_, ?_, ?_⟩ <;> decide

/-- C3: a slot whose four attempts all fail, in a never-cancelled run,
yields exactly one error-status `onImage`, no success `onImage`, exactly
one `onProgress` increment after all `MAX_RETRIES + 1` attempts; and no
slot failure aborts sibling slots or the batch: every never-cancelled batch
drains its whole queue and reports progress `1..k` whatever the provider
does. -/
theorem claim_C3_retry_exhaustion (oS : Nat → AttemptResult)
    (total completed n t : Nat)
    (hall : ∀ j, j ≤ MAX_RETRIES → attemptFound (oS j) = false) :
    countErrT (processSlot oS neverAbort total completed n t).events = 1 ∧
    countSuccT (processSlot oS neverAbort total completed n t).events = 0 ∧
    progressOf (processSlot oS neverAbort total completed n t).events =
      [(completed + 1, total)] ∧
    (retryLoop oS neverAbort (MAX_RETRIES + 1) 0 n t 0).attempts = MAX_RETRIES + 1 ∧
    (∀ (o : Nat → Nat → AttemptResult) (k : Nat),
      (workerLoop o neverAbort k (List.range k) 0 0 0).queue = [] ∧
      (workerLoop o neverAbort k (List.range k) 0 0 0).aborted = false ∧
      progressOf (runBatch o k) = (List.range' 1 k).map fun i => (i, k)) := by
  obtain ⟨h1, h2, h3, -, h5⟩ := processSlot_allfail oS total completed n t hall
  refine ⟨h1, h2, h3, h5, ?_⟩
  intro o k
  obtain ⟨p1, p2, p3, -⟩ := workerLoop_neverAbort_shape o k (List.range k) 0 0 0
  exact ⟨p2, p3, by simpa [runBatch, List.length_range] using p1⟩

/-- C3 witness: the always-failing stub on a slot of a 5-image batch. -/
theorem claim_C3_witness :
    countErrT (processSlot oracleFail neverAbort 5 0 0 0).events = 1 ∧
    countSuccT (processSlot oracleFail neverAbort 5 0 0 0).events = 0 ∧
    progressOf (processSlot oracleFail neverAbort 5 0 0 0).events = [(1, 5)] ∧
    (retryLoop oracleFail neverAbort (MAX_RETRIES + 1) 0 0 0 0).attempts =
      MAX_RETRIES + 1 := by
  have h := claim_C3_retry_exhaustion oracleFail 5 0 0 0 (fun j _ => rfl)
  exact ⟨h.1, h.2.1, h.2.2.1, h.2.2.2.1⟩

/-- C4: the cancellation signal is checked before claiming a slot (an
observed signal returns at once, emitting nothing and leaving the queue
untouched) and at each retry-loop entry (an observed signal aborts with no
wait, attempt or event); a slot whose retry loop was abandoned by
cancellation emits no synthetic error-status `onImage`, no `onImage` at
all, and no `onProgress` (silence, unlike exhausted retries); and after
such an abandonment the worker returns without touching further slots. -/
theorem claim_C4_cancellation :
    (∀ (o : Nat → Nat → AttemptResult) (abort : Nat → Bool) (total idx : Nat)
      (rest : List Nat) (completed n t : Nat),
      abort t = true →
      workerLoop o abort total (idx :: rest) completed n t =
        ⟨[], completed, n, t, idx :: rest, true⟩) ∧
    (∀ (o : Nat → AttemptResult) (abort : Nat → Bool) (fuel attempt n t made : Nat),
      attempt ≤ MAX_RETRIES → abort t = true →
      retryLoop o abort (fuel + 1) attempt n t made =
        ⟨[], RetryExit.aborted, n, t, made⟩) ∧
    (∀ (o : Nat → AttemptResult) (abort : Nat → Bool) (total completed n t : Nat),
      (processSlot o abort total completed n t).aborted = true →
      countErrT (processSlot o abort total completed n t).events = 0 ∧
      countImagesT (processSlot o abort total completed n t).events = 0 ∧
      progressOf (processSlot o abort total completed n t).events = []) ∧
    (∀ (o : Nat → Nat → AttemptResult) (abort : Nat → Bool) (total idx : Nat)
      (rest : List Nat) (completed n t : Nat),
      abort t = false →
      (processSlot (o idx) abort total completed n t).aborted = true →
      workerLoop o abort total (idx :: rest) completed n t =
        ⟨(processSlot (o idx) abort total completed n t).events, completed,
          (processSlot (o idx) abort total completed n t).ids,
          (processSlot (o idx) abort total completed n t).time, rest, true⟩) := by
  refine ⟨?_, ?_, ?_, ?_⟩
  · intro o abort total idx rest completed n t h
    simp [workerLoop, h]
  · intro o abort fuel attempt n t made h1 h2
    exact retryLoop_abort_entry o abort fuel attempt n t made h1 h2
  · intro o abort total completed n t hab
    have hr : (retryLoop o abort (MAX_RETRIES + 1) 0 n t 0).exit = RetryExit.aborted := by
      by_contra hne
      rw [processSlot] at hab
      simp only [hne, if_false, ite_false] at hab
      exact absurd hab (by decide)
    rw [processSlot_aborted_eq o abort total completed n t hr]
    refine ⟨retryLoop_countErr o abort (MAX_RETRIES + 1) 0 n t 0, ?_,
      retryLoop_progress o abort (MAX_RETRIES + 1) 0 n t 0⟩
    exact retryLoop_img_zero o abort (MAX_RETRIES + 1) 0 n t 0 (by rw [hr]; simp)
  · intro o abort total idx rest completed n t habt hs
    simp [workerLoop, habt, hs]

/-- C4 witness: a fired signal before claiming; a fired signal at a retry
entry; a signal firing during the first in-flight attempt yields an
abandoned slot with no events at all, and the worker stops. -/
theorem claim_C4_witness :
    workerLoop oracleOneImage abortAll 5 [0, 1] 0 0 0 = ⟨[], 0, 0, 0, [0, 1], true⟩ ∧
    retryLoop oracleFail abortAll (3 + 1) 0 0 0 0 = ⟨[], RetryExit.aborted, 0, 0, 0⟩ ∧
    (countErrT (processSlot oracleFail abortAfterOne 5 0 0 0).events = 0 ∧
      countImagesT (processSlot oracleFail abortAfterOne 5 0 0 0).events = 0 ∧
      progressOf (processSlot oracleFail abortAfterOne 5 0 0 0).events = []) ∧
    workerLoop (fun _ => oracleFail) abortAfterOne 5 [0, 1] 0 0 0 =
      ⟨(processSlot oracleFail abortAfterOne 5 0 0 0).events, 0,
        (processSlot oracleFail abortAfterOne 5 0 0 0).ids,
        (processSlot oracleFail abortAfterOne 5 0 0 0).time, [1], true⟩ := by
  refine ⟨claim_C4_cancellation.1 oracleOneImage abortAll 5 0 [1] 0 0 0 rfl,
    claim_C4_cancellation.2.1 oracleFail abortAll 3 0 0 0 0 (by decide) rfl,
    claim_C4_cancellation.2.2.1 oracleFail abortAfterOne 5 0 0 0 (by decide),
    claim_C4_cancellation.2.2.2 (fun _ => oracleFail) abortAfterOne 5 0 [1] 0 0 0 rfl
      (by decide)⟩

/-- C9: an attempt whose response has text parts but no image emits one
`onText` per text part during that very attempt and fails (so it is
retried); over a whole slot the emitted texts are exactly the texts of the
attempts made, in order, so `onText` can fire several times for one slot;
and a slot all of whose attempts are text-only ends with one error-status
`onImage` and no success `onImage` — an `onText` never marks a slot
successful. -/
theorem claim_C9_text_only :
    (∀ (parts : List RespPartRaw) (n : Nat), parts.any isImagePartRaw = false →
      attemptStep (AttemptResult.ok parts) n =
        ⟨(parts.filterMap partTextOf).map TraceItem.onText, n, false⟩) ∧
    (∀ (oS : Nat → AttemptResult) (n t : Nat),
      textsOf (retryLoop oS neverAbort (MAX_RETRIES + 1) 0 n t 0).events =
        (List.range' 0 (retryLoop oS neverAbort (MAX_RETRIES + 1) 0 n t 0).attempts).flatMap
          fun j => attemptTexts (oS j)) ∧
    (∀ (oS : Nat → AttemptResult) (total completed n t : Nat),
      (∀ j, j ≤ MAX_RETRIES → attemptFound (oS j) = false) →
      countErrT (processSlot oS neverAbort total completed n t).events = 1 ∧
      countSuccT (processSlot oS neverAbort total completed n t).events = 0) := by
  refine ⟨?_, ?_, ?_⟩
  · intro parts n h
    exact processParts_textOnly parts n h
  · intro oS n t
    have := retryLoop_texts oS neverAbort (MAX_RETRIES + 1) 0 n t 0
    simpa using this
  · intro oS total completed n t hall
    obtain ⟨h1, h2, -, -, -⟩ := processSlot_allfail oS total completed n t hall
    exact ⟨h1, h2⟩

/-- C9 witness: a two-text response emits two `onText` calls and fails;
over the slot the four text-only attempts fire `onText` eight times, and
the slot ends with one error-status `onImage`. -/
theorem claim_C9_witness :
    attemptStep (AttemptResult.ok [partTextA, partTextB]) 0 =
      ⟨[TraceItem.onText "a", TraceItem.onText "b"], 0, false⟩ ∧
    textsOf (retryLoop oracleTexts neverAbort (MAX_RETRIES + 1) 0 0 0 0).events =
      ["a", "b", "a", "b", "a", "b", "a", "b"] ∧
    countErrT (processSlot oracleTexts neverAbort 1 0 0 0).events = 1 ∧
    countSuccT (processSlot oracleTexts neverAbort 1 0 0 0).events = 0 := by
  refine ⟨?_, ?_, ?_, ?_⟩
  · rw [claim_C9_text_only.1 [partTextA, partTextB] 0 (by decide)]
    decide
  · rw [claim_C9_text_only.2.1 oracleTexts 0 0]
    decide
  · exact (claim_C9_text_only.2.2 oracleTexts 1 0 0 0 (fun j _ => rfl)).1
  · exact (claim_C9_text_only.2.2 oracleTexts 1 0 0 0 (fun j _ => rfl)).2

/-! ## Preflight lemmas -/

theorem geminiUserParts_eq_nil (p : String) (h : List Message)
    (u : Option (List UploadedImage)) :
    geminiUserParts p h u = [] ↔
      p = "" ∧ collectSelectedImages h = [] ∧ filterUploadedG (u.getD []) = [] := by
  unfold geminiUserParts geminiImageInputs
  constructor
  · intro hh
    rcases List.append_eq_nil.mp hh with ⟨h1, h2⟩
    rcases List.append_eq_nil.mp (List.map_eq_nil_iff.mp h2) with ⟨hs, hf⟩
    refine ⟨?_, hs, hf⟩
    by_cases hp : p = ""
    · exact hp
    · simp [hp] at h1
  · rintro ⟨hp, hs, hf⟩
    simp [hp, hs, hf]

theorem openaiUserContent_eq_nil (p : String) (h : List Message)
    (u : Option (List UploadedImage)) :
    openaiUserContent p h u = [] ↔
      p = "" ∧ collectSelectedImagesOA h = [] ∧
        (u.getD []).filterMap validateUploadedOA = [] := by
  unfold openaiUserContent
  constructor
  · intro hh
    rcases List.append_eq_nil.mp hh with ⟨h1, h2⟩
    rcases List.append_eq_nil.mp h1 with ⟨h1a, h1b⟩
    refine ⟨?_, h1b, h2⟩
    by_cases hp : p = ""
    · exact hp
    · simp [hp] at h1a
  · rintro ⟨hp, hs, hf⟩
    simp [hp, hs, hf]

theorem geminiPreflight_ok (p : String) (h : List Message)
    (u : Option (List UploadedImage)) (parts : List Part)
    (hpre : geminiPreflight p h u = Except.ok parts) :
    parts = geminiUserParts p h u := by
  unfold geminiPreflight at hpre
  split at hpre
  · exact absurd hpre (by simp)
  · split at hpre
    · exact absurd hpre (by simp)
    · exact (Except.ok.inj hpre).symm

theorem openaiPreflight_ok (p : String) (h : List Message)
    (u : Option (List UploadedImage)) (parts : List Part)
    (hpre : openaiPreflight p h u = Except.ok parts) :
    parts = openaiUserContent p h u := by
  unfold openaiPreflight at hpre
  split at hpre
  · exact absurd hpre (by simp)
  · exact (Except.ok.inj hpre).symm

theorem legacyParts_shape (m : Message) :
    legacyParts m = [] ∨
      (m.role = Role.model ∧ ∃ mt b64, legacyParts m = [Part.inlineData mt b64]) := by
  unfold legacyParts
  repeat' split
  all_goals first
    | exact Or.inl rfl
    | exact Or.inr ⟨by assumption, _, _, rfl⟩

theorem collectSelectedImages_retext (h : List Message)
    (f : Message → Option String) (g : Message → Option (List String)) :
    collectSelectedImages (h.map fun m => { m with text := f m, textVariations := g m }) =
      collectSelectedImages h := by
  rw [collectSelectedImages, collectSelectedImages, List.filterMap_map]
  rfl

theorem collectSelectedImagesOA_retext (h : List Message)
    (f : Message → Option String) (g : Message → Option (List String)) :
    collectSelectedImagesOA (h.map fun m => { m with text := f m, textVariations := g m }) =
      collectSelectedImagesOA h := by
  rw [collectSelectedImagesOA, collectSelectedImagesOA, List.filterMap_map]
  rfl

theorem buildHistoryLegacy_retext (h : List Message)
    (f : Message → Option String) (g : Message → Option (List String)) :
    buildHistoryLegacy (h.map fun m => { m with text := f m, textVariations := g m }) =
      buildHistoryLegacy h := by
  rw [buildHistoryLegacy, buildHistoryLegacy, List.filterMap_map]
  rfl

/-! ## Claims about the request normalizer -/

/-- C10: the outbound request contents never contain text from prior
conversation messages and hold at most one user-role message. Replacing
every history message's `text`/`textVariations` fields changes neither the
Gemini preflight, the legacy history builder, nor the OpenAI preflight;
accepted Gemini contents are exactly one user-role entry; and every legacy
history entry is model-role and free of text parts. -/
theorem claim_C10_no_history_text :
    (∀ (p : String) (h : List Message) (u : Option (List UploadedImage))
        (f : Message → Option String) (g : Message → Option (List String)),
      geminiPreflight p (h.map fun m => { m with text := f m, textVariations := g m }) u =
        geminiPreflight p h u) ∧
    (∀ (p : String) (h : List Message) (u : Option (List UploadedImage))
        (cs : List Content),
      geminiContents p h u = Except.ok cs →
      cs.length = 1 ∧ cs.countP (fun c => c.role == "user") = 1 ∧
        cs = [⟨"user", geminiUserParts p h u⟩]) ∧
    (∀ (h : List Message) (f : Message → Option String)
        (g : Message → Option (List String)),
      buildHistoryLegacy (h.map fun m => { m with text := f m, textVariations := g m }) =
        buildHistoryLegacy h) ∧
    (∀ (h : List Message), ∀ c ∈ buildHistoryLegacy h,
      c.role = "model" ∧ ∀ part ∈ c.parts, isTextPart part = false) ∧
    (∀ (p : String) (h : List Message) (u : Option (List UploadedImage))
        (f : Message → Option String) (g : Message → Option (List String)),
      openaiPreflight p (h.map fun m => { m with text := f m, textVariations := g m }) u =
        openaiPreflight p h u) := by
  refine ⟨?_, ?_, buildHistoryLegacy_retext, ?_, ?_⟩
  · intro p h u f g
    simp only [geminiPreflight, geminiUserParts, geminiImageInputs,
      collectSelectedImages_retext h f g]
  · intro p h u cs hok
    unfold geminiContents at hok
    cases hpre : geminiPreflight p h u with
    | error e => rw [hpre] at hok; exact absurd hok (by simp [Except.map])
    | ok parts =>
      rw [hpre] at hok
      simp only [Except.map, buildHistory, List.nil_append] at hok
      have hcs : cs = [⟨"user", parts⟩] := (Except.ok.inj hok).symm
      have hparts := geminiPreflight_ok p h u parts hpre
      subst hcs hparts
      exact ⟨rfl, rfl, rfl⟩
  · intro h c hc
    obtain ⟨m, hm, hsome⟩ := List.mem_filterMap.mp hc
    by_cases he : (legacyParts m).isEmpty
    · simp [he] at hsome
    · simp only [he, if_false, ite_false] at hsome
      have hcc := Option.some.inj hsome
      subst hcc
      rcases legacyParts_shape m with hnil | ⟨hrole, mt, b64, hp⟩
      · rw [hnil] at he; simp at he
      · refine ⟨by rw [hrole]; rfl, ?_⟩
        intro part hpart
        rw [hp] at hpart
        rcases List.mem_singleton.mp hpart with rfl
        rfl
  · intro p h u f g
    simp only [openaiPreflight, openaiUserContent, collectSelectedImagesOA_retext h f g]

/-- C10 witness: a text-only prompt with empty history yields exactly one
user-role content entry. -/
theorem claim_C10_witness :
    ([(⟨"user", [Part.text "hi"]⟩ : Content)] : List Content).length = 1 ∧
    ([(⟨"user", [Part.text "hi"]⟩ : Content)] : List Content).countP
        (fun c => c.role == "user") = 1 ∧
    ([(⟨"user", [Part.text "hi"]⟩ : Content)] : List Content) =
      [⟨"user", geminiUserParts "hi" [] none⟩] :=
  claim_C10_no_history_text.2.1 "hi" [] none [⟨"user", [Part.text "hi"]⟩] rfl

/-- C5 (counterexample): in the OpenAI-compatible service, supplying one
uploaded image that does not survive filtering together with a non-empty
prompt does NOT reject the batch, although condition (i) of the claim (at
least one uploaded image supplied, zero survive) holds. -/
theorem claim_C5_counterexample :
    (some [badImage] : Option (List UploadedImage)).getD [] ≠ [] ∧
    ([badImage].filterMap validateUploadedOA) = [] ∧
    isOkE (openaiPreflight "a prompt" [] (some [badImage])) = true := by
  refine ⟨by decide, by decide, by decide⟩

/-- C5 (amended): invalid or oversized uploads are each dropped without
failing the batch; the Gemini batch rejects before any worker exactly when
(i) at least one uploaded image was supplied and zero uploads survive, or
(ii) no text part and no image part remains after filtering; the
OpenAI-compatible batch rejects exactly under (ii) alone — it has no
zero-surviving-uploads rejection. -/
theorem claim_C5_validation :
    (∀ (xs ys : List UploadedImage) (img : UploadedImage),
      validateUploaded img = none →
      filterUploadedG (xs ++ img :: ys) = filterUploadedG (xs ++ ys)) ∧
    (∀ (p : String) (h : List Message) (u : Option (List UploadedImage)),
      isOkE (geminiPreflight p h u) = false ↔
        ((u.getD []) ≠ [] ∧ filterUploadedG (u.getD []) = []) ∨
        (p = "" ∧ collectSelectedImages h = [] ∧ filterUploadedG (u.getD []) = [])) ∧
    (∀ (p : String) (h : List Message) (u : Option (List UploadedImage)),
      isOkE (openaiPreflight p h u) = false ↔
        (p = "" ∧ collectSelectedImagesOA h = [] ∧
          (u.getD []).filterMap validateUploadedOA = [])) := by
  refine ⟨?_, ?_, ?_⟩
  · intro xs ys img hnone
    simp [filterUploadedG, List.filterMap_append, List.filterMap_cons, hnone]
  · intro p h u
    by_cases hc1 : (u.getD []).length > 0 ∧ filterUploadedG (u.getD []) = []
    · have herr : geminiPreflight p h u =
          Except.error
            "No valid images could be processed. Please check image format and size." := by
        simp [geminiPreflight, hc1]
      refine ⟨fun _ => Or.inl ⟨List.length_pos.mp hc1.1, hc1.2⟩, fun _ => by
        rw [herr]; rfl⟩
    · by_cases hup : geminiUserParts p h u = []
      · have herr : geminiPreflight p h u =
            Except.error "At least one image or text prompt is required." := by
          simp [geminiPreflight, hc1, hup]
        exact ⟨fun _ => Or.inr ((geminiUserParts_eq_nil p h u).mp hup), fun _ => by
          rw [herr]; rfl⟩
      · have hok : geminiPreflight p h u = Except.ok (geminiUserParts p h u) := by
          simp [geminiPreflight, hc1, hup]
        rw [hok]
        constructor
        · intro hq; exact absurd hq (by simp [isOkE])
        · intro hrhs
          exfalso
          rcases hrhs with ⟨hne, hf⟩ | ⟨hp, hsel, hfu⟩
          · exact hc1 ⟨List.length_pos.mpr hne, hf⟩
          · exact hup ((geminiUserParts_eq_nil p h u).mpr ⟨hp, hsel, hfu⟩)
  · intro p h u
    by_cases hc : openaiUserContent p h u = []
    · have herr : openaiPreflight p h u =
          Except.error "At least one image or text prompt is required." := by
        simp [openaiPreflight, hc]
      exact ⟨fun _ => (openaiUserContent_eq_nil p h u).mp hc, fun _ => by rw [herr]; rfl⟩
    · have hok : openaiPreflight p h u = Except.ok (openaiUserContent p h u) := by
        simp [openaiPreflight, hc]
      rw [hok]
      constructor
      · intro hq; exact absurd hq (by simp [isOkE])
      · intro hrhs
        exact absurd ((openaiUserContent_eq_nil p h u).mpr hrhs) hc

/-- C5 witness: one bad upload next to one good upload is dropped without
rejection; the Gemini batch with a bad sole upload rejects; an empty
request rejects on both paths. -/
theorem claim_C5_witness :
    filterUploadedG ([goodImage1] ++ badImage :: []) = filterUploadedG ([goodImage1] ++ []) ∧
    (isOkE (geminiPreflight "x" [] (some [badImage])) = false ↔
      ((some [badImage] : Option (List UploadedImage)).getD [] ≠ [] ∧
          filterUploadedG ((some [badImage] : Option (List UploadedImage)).getD []) = []) ∨
      ("x" = "" ∧ collectSelectedImages [] = [] ∧
          filterUploadedG ((some [badImage] : Option (List UploadedImage)).getD []) = [])) ∧
    (isOkE (openaiPreflight "" [] none) = false ↔
      ("" = "" ∧ collectSelectedImagesOA [] = [] ∧
        ((none : Option (List UploadedImage)).getD []).filterMap validateUploadedOA = [])) := by
  refine ⟨claim_C5_validation.1 [goodImage1] [] badImage (by decide),
    claim_C5_validation.2.1 "x" [] (some [badImage]),
    claim_C5_validation.2.2 "" [] none⟩

/-- C6 (counterexample): on the OpenAI-compatible path, two surviving
images and a prompt with an ordinal image reference are sent with the
prompt unchanged — no image-order legend is prefixed, although the claim
requires one for every provider request in this situation. -/
theorem claim_C6_counterexample :
    hasImageReference ordinalPrompt = true ∧
    openaiPreflight ordinalPrompt [] (some [goodImage1, goodImage2]) =
      Except.ok [Part.text ordinalPrompt,
        Part.imageUrl "data:image/png;base64,AAAA",
        Part.imageUrl "data:image/png;base64,BBBB"] ∧
    enhancePrompt ordinalPrompt 2 ≠ ordinalPrompt := by
  refine ⟨by decide, by rfl, by decide⟩

/-- C6 (amended): the legend transform is a pure function of the prompt
text and the surviving image count; with at most one surviving image or no
ordinal reference the prompt is unchanged; with two or more surviving
images and an ordinal reference the Gemini service sends the prompt
prefixed with the image-order legend, while the OpenAI-compatible service
always sends the prompt unchanged. -/
theorem claim_C6_prompt_legend :
    (∀ (p : String) (c : Nat), c ≤ 1 → enhancePrompt p c = p) ∧
    (∀ (p : String) (c : Nat), 2 ≤ c → hasImageReference p = true →
      enhancePrompt p c = imageOrderLegend c ++ p) ∧
    (∀ (p : String) (c : Nat), hasImageReference p = false → enhancePrompt p c = p) ∧
    (∀ (p : String) (h : List Message) (u : Option (List UploadedImage))
        (parts : List Part), p ≠ "" → geminiPreflight p h u = Except.ok parts →
      parts.head? =
          some (Part.text (enhancePrompt p (parts.countP isInlinePart))) ∧
      parts.countP isInlinePart = (geminiImageInputs h u).length) ∧
    (∀ (p : String) (h1 h2 : List Message) (u1 u2 : Option (List UploadedImage))
        (parts1 parts2 : List Part), p ≠ "" →
      geminiPreflight p h1 u1 = Except.ok parts1 →
      geminiPreflight p h2 u2 = Except.ok parts2 →
      (geminiImageInputs h1 u1).length = (geminiImageInputs h2 u2).length →
      parts1.head? = parts2.head?) ∧
    (∀ (p : String) (h : List Message) (u : Option (List UploadedImage))
        (parts : List Part), p ≠ "" → openaiPreflight p h u = Except.ok parts →
      parts.head? = some (Part.text p)) := by
  have hparts_shape : ∀ (p : String) (h : List Message) (u : Option (List UploadedImage)),
      p ≠ "" →
      geminiUserParts p h u =
        Part.text (enhancePrompt p (geminiImageInputs h u).length) ::
          (geminiImageInputs h u).map fun i => Part.inlineData i.mimeType i.base64Data := by
    intro p h u hp
    simp [geminiUserParts, hp]
  have hcount : ∀ (h : List Message) (u : Option (List UploadedImage)) (p0 : String),
      ((Part.text p0 ::
          (geminiImageInputs h u).map fun i => Part.inlineData i.mimeType i.base64Data) :
        List Part).countP isInlinePart = (geminiImageInputs h u).length := by
    intro h u p0
    rw [List.countP_cons]
    have h1 : isInlinePart (Part.text p0) = false := rfl
    have h2 : ((geminiImageInputs h u).map fun i =>
        Part.inlineData i.mimeType i.base64Data).countP isInlinePart =
        (geminiImageInputs h u).length := by
      rw [List.countP_eq_length.mpr]
      · rw [List.length_map]
      · intro a ha
        obtain ⟨i, hi, rfl⟩ := List.mem_map.mp ha
        rfl
    simp [h1, h2]
  refine ⟨?_, ?_, ?_, ?_, ?_, ?_⟩
  · intro p c hc
    have : ¬ (1 < c) := by omega
    simp [enhancePrompt, this]
  · intro p c hc href
    have : 1 < c := by omega
    simp [enhancePrompt, this, href]
  · intro p c href
    simp [enhancePrompt, href]
  · intro p h u parts hp hok
    have hup := geminiPreflight_ok p h u parts hok
    rw [hup, hparts_shape p h u hp]
    refine ⟨?_, hcount h u _⟩
    rw [List.head?_cons, hcount h u (enhancePrompt p (geminiImageInputs h u).length)]
  · intro p h1 h2 u1 u2 parts1 parts2 hp hok1 hok2 hlen
    have e1 := geminiPreflight_ok p h1 u1 parts1 hok1
    have e2 := geminiPreflight_ok p h2 u2 parts2 hok2
    rw [e1, e2, hparts_shape p h1 u1 hp, hparts_shape p h2 u2 hp]
    rw [List.head?_cons, List.head?_cons, hlen]
  · intro p h u parts hp hok
    have hup := openaiPreflight_ok p h u parts hok
    rw [hup]
    simp [openaiUserContent, hp]

/-- C6 witness: one image leaves the prompt unchanged; two images with an
ordinal reference get the legend on the Gemini path; the Gemini pipeline
sends exactly the enhanced prompt as its first part. -/
theorem claim_C6_witness :
    enhancePrompt "x" 1 = "x" ∧
    enhancePrompt ordinalPrompt 2 = imageOrderLegend 2 ++ ordinalPrompt ∧
    (([Part.text (enhancePrompt ordinalPrompt 2),
        Part.inlineData "image/png" "AAAA",
        Part.inlineData "image/png" "BBBB"] : List Part).head? =
      some (Part.text (enhancePrompt ordinalPrompt
        (([Part.text (enhancePrompt ordinalPrompt 2),
          Part.inlineData "image/png" "AAAA",
          Part.inlineData "image/png" "BBBB"] : List Part).countP isInlinePart))) ∧
      ([Part.text (enhancePrompt ordinalPrompt 2),
        Part.inlineData "image/png" "AAAA",
        Part.inlineData "image/png" "BBBB"] : List Part).countP isInlinePart =
        (geminiImageInputs [] (some [goodImage1, goodImage2])).length) ∧
    (([Part.text "x", Part.imageUrl "data:image/png;base64,AAAA"] : List Part).head? =
      some (Part.text "x")) := by
  refine ⟨claim_C6_prompt_legend.1 "x" 1 (by decide),
    claim_C6_prompt_legend.2.1 ordinalPrompt 2 (by decide) (by decide),
    claim_C6_prompt_legend.2.2.2.1 ordinalPrompt [] (some [goodImage1, goodImage2]) _
      (by decide) (by rfl),
    claim_C6_prompt_legend.2.2.2.2.2 "x" [] (some [goodImage1]) _ (by decide) (by rfl)⟩

/-! ## String lemmas for the data-URI extractor -/

theorem base64Char_not_lineTerminator (c : Char) (h : base64Char c = true) :
    lineTerminator c = false := by
  simp only [base64Char, Bool.or_eq_true, Bool.and_eq_true, decide_eq_true_eq] at h
  simp only [lineTerminator, Bool.or_eq_false_iff, decide_eq_false_iff_not]
  omega

theorem takeWhile_all_append {p : Char → Bool} :
    ∀ (xs ys : List Char), (∀ x ∈ xs, p x = true) →
      (xs ++ ys).takeWhile p = xs ++ ys.takeWhile p := by
  intro xs
  induction xs with
  | nil => intro ys _; rfl
  | cons x rest ih =>
    intro ys h
    have hx : p x = true := h x (List.mem_cons_self x rest)
    simp only [List.cons_append, List.takeWhile_cons, hx, if_true]
    rw [ih ys fun a ha => h a (List.mem_cons_of_mem x ha)]

theorem hasInfix_iff (pat : List Char) :
    ∀ (l : List Char), hasInfix pat l = true ↔ ∃ pre post, l = pre ++ pat ++ post := by
  intro l
  induction l with
  | nil =>
    simp only [hasInfix, List.isEmpty_iff]
    constructor
    · intro h; exact ⟨[], [], by simp [h]⟩
    · rintro ⟨pre, post, h⟩
      rcases List.append_eq_nil.mp (List.append_eq_nil.mp h.symm).1 with ⟨-, h2⟩
      exact h2
  | cons c rest ih =>
    simp only [hasInfix, Bool.or_eq_true]
    constructor
    · rintro (hpre | hrec)
      · obtain ⟨post, hpost⟩ := List.isPrefixOf_iff_prefix.mp hpre
        exact ⟨[], post, by simp [hpost]⟩
      · obtain ⟨pre, post, hrec'⟩ := ih.mp hrec
        exact ⟨c :: pre, post, by simp [hrec']⟩
    · rintro ⟨pre, post, heq⟩
      cases pre with
      | nil =>
        left
        exact List.isPrefixOf_iff_prefix.mpr ⟨post, by simpa using heq.symm⟩
      | cons p ps =>
        right
        refine ih.mpr ⟨ps, post, ?_⟩
        have := heq
        simp only [List.cons_append, List.cons.injEq] at this
        exact this.2

theorem string_ne_empty_iff_data (s : String) : s ≠ "" ↔ s.data ≠ [] := by
  constructor
  · intro h hdata
    exact h (String.ext hdata)
  · intro h hs
    rw [hs] at h
    exact h rfl

theorem mk_roundtrip_uri (mime data : String) :
    ("data:" ++ mime ++ ";base64," ++ data).data =
      "data:".data ++ (mime.data ++ ';' :: ("base64,".data ++ data.data)) := by
  simp [String.data_append, List.append_assoc]

theorem regexSemi_cons (m t : List Char) : regexSemi m (';' :: t) = regexTail m t := rfl

theorem regexSemi_nil (m : List Char) : regexSemi m [] = none := rfl

theorem regexSemi_cons_ne (m t : List Char) (a : Char) (ha : a ≠ ';') :
    regexSemi m (a :: t) = none := by
  unfold regexSemi
  split
  · next heq =>
    exfalso
    exact ha (List.cons.inj heq).1
  · rfl

theorem regexMatchDataUri_roundtrip (mime data : String)
    (hm : mime ≠ "") (hm2 : ∀ c ∈ mime.data, c ≠ ';')
    (hd : data ≠ "") (hd2 : ∀ c ∈ data.data, base64Char c = true) :
    regexMatchDataUri ("data:" ++ mime ++ ";base64," ++ data) = some (mime, data) := by
  have hpref : ("data:".data).isPrefixOf
      ("data:".data ++ (mime.data ++ ';' :: ("base64,".data ++ data.data))) = true :=
    List.isPrefixOf_iff_prefix.mpr ⟨_, rfl⟩
  have hdrop5 : ("data:".data ++ (mime.data ++ ';' :: ("base64,".data ++ data.data))).drop 5 =
      mime.data ++ ';' :: ("base64,".data ++ data.data) := by
    have h5 : ("data:".data).length = 5 := rfl
    rw [← h5, List.drop_left]
  unfold regexMatchDataUri
  rw [mk_roundtrip_uri, if_pos hpref, hdrop5]
  have htake : (mime.data ++ ';' :: ("base64,".data ++ data.data)).takeWhile
      (fun c => c != ';') = mime.data := by
    rw [takeWhile_all_append mime.data _ fun x hx => by simpa using hm2 x hx]
    simp [List.takeWhile_cons]
  unfold regexAfterPrefix
  rw [htake]
  rw [if_neg (by
    intro hnil
    exact (string_ne_empty_iff_data mime).mp hm hnil)]
  have hdropm : (mime.data ++ ';' :: ("base64,".data ++ data.data)).drop mime.data.length =
      ';' :: ("base64,".data ++ data.data) := List.drop_left _ _
  rw [hdropm, regexSemi_cons]
  unfold regexTail
  have hpref2 : ("base64,".data).isPrefixOf ("base64,".data ++ data.data) = true :=
    List.isPrefixOf_iff_prefix.mpr ⟨_, rfl⟩
  rw [if_pos hpref2]
  have hdrop7 : ("base64,".data ++ data.data).drop 7 = data.data := by
    have h7 : ("base64,".data).length = 7 := rfl
    rw [← h7, List.drop_left]
  rw [hdrop7]
  rw [if_neg (by
    intro hnil
    exact (string_ne_empty_iff_data data).mp hd hnil)]
  rw [if_neg (by
    intro hany
    obtain ⟨c, hc, hlt⟩ := List.any_eq_true.mp hany
    rw [base64Char_not_lineTerminator c (hd2 c hc)] at hlt
    exact Bool.false_ne_true hlt)]

theorem regexTail_some (m t : List Char) (md : String × String)
    (h : regexTail m t = some md) : ∃ payload, t = "base64,".data ++ payload := by
  unfold regexTail at h
  by_cases hp : ("base64,".data).isPrefixOf t = true
  · obtain ⟨payload, hpay⟩ := List.isPrefixOf_iff_prefix.mp hp
    exact ⟨payload, hpay.symm⟩
  · rw [if_neg hp] at h
    exact absurd h (by simp)

theorem regexSemi_some (m t : List Char) (md : String × String)
    (h : regexSemi m t = some md) :
    ∃ payload, t = ';' :: ("base64,".data ++ payload) := by
  cases t with
  | nil => rw [regexSemi_nil] at h; exact absurd h (by simp)
  | cons a tail =>
    by_cases ha : a = ';'
    · subst ha
      rw [regexSemi_cons] at h
      obtain ⟨payload, hpay⟩ := regexTail_some m tail md h
      exact ⟨payload, by rw [hpay]⟩
    · rw [regexSemi_cons_ne m tail a ha] at h
      exact absurd h (by simp)

theorem regexMatchDataUri_structure (uri : String) (md : String × String)
    (h : regexMatchDataUri uri = some md) :
    ∃ pre post, uri.data = pre ++ (";base64,").data ++ post := by
  unfold regexMatchDataUri at h
  by_cases hpref : ("data:".data).isPrefixOf uri.data = true
  · rw [if_pos hpref] at h
    obtain ⟨rest, hrest⟩ := List.isPrefixOf_iff_prefix.mp hpref
    unfold regexAfterPrefix at h
    set mimeL := (uri.data.drop 5).takeWhile (fun c => c != ';') with hM
    by_cases hmn : mimeL = []
    · rw [if_pos hmn] at h
      exact absurd h (by simp)
    · rw [if_neg hmn] at h
      obtain ⟨payload, hpay⟩ := regexSemi_some _ _ md h
      have htake_eq : (uri.data.drop 5).take mimeL.length = mimeL :=
        (List.prefix_iff_eq_take.mp (List.takeWhile_prefix _)).symm
      have hsplit : uri.data.drop 5 = mimeL ++ (';' :: ("base64,".data ++ payload)) := by
        conv_lhs => rw [← List.take_append_drop mimeL.length (uri.data.drop 5)]
        rw [htake_eq, hpay]
      have hdrop : uri.data.drop 5 = rest := by
        rw [← hrest]
        have h5 : ("data:".data).length = 5 := rfl
        rw [← h5, List.drop_left]
      have huri : uri.data = "data:".data ++ uri.data.drop 5 := by
        rw [hdrop]
        exact hrest.symm
      refine ⟨"data:".data ++ mimeL, payload, ?_⟩
      conv_lhs => rw [huri, hsplit]
      have hsep : (";base64,").data = ';' :: "base64,".data := rfl
      rw [hsep]
      simp [List.append_assoc]
  · rw [if_neg hpref] at h
    exact absurd h (by simp)

/-! ## Endpoint lemmas -/

theorem string_append_ne_right (s t : String) (h : t ≠ "") : s ++ t ≠ "" := by
  rw [string_ne_empty_iff_data] at h ⊢
  rw [String.data_append]
  intro hc
  exact h (List.append_eq_nil.mp hc).2

theorem string_append_ne_left (s t : String) (h : s ≠ "") : s ++ t ≠ "" := by
  rw [string_ne_empty_iff_data] at h ⊢
  rw [String.data_append]
  intro hc
  exact h (List.append_eq_nil.mp hc).1

theorem containsSub_ne_empty (s pat : String) (hp : pat ≠ "")
    (h : containsSub s pat = true) : s ≠ "" := by
  rw [string_ne_empty_iff_data] at hp ⊢
  rw [containsSub] at h
  obtain ⟨pre, post, heq⟩ := (hasInfix_iff _ _).mp h
  intro hc
  rw [hc] at heq
  rcases List.append_eq_nil.mp (List.append_eq_nil.mp heq.symm).1 with ⟨-, h2⟩
  exact hp h2

theorem buildGeminiEndpointCore_ne_empty (normalized modelName : String) :
    buildGeminiEndpointCore normalized modelName ≠ "" := by
  unfold buildGeminiEndpointCore
  by_cases h1 : containsSub normalized ":generateContent" = true
  · rw [if_pos h1]
    exact containsSub_ne_empty normalized ":generateContent" (by decide) h1
  · rw [if_neg h1]
    by_cases h2 : endsWithModelsSeg normalized = true
    · rw [if_pos h2]
      exact string_append_ne_right _ _ (by decide)
    · rw [if_neg h2]
      by_cases h3 : endsWithStr normalized "/models" = true
      · rw [if_pos h3]
        exact string_append_ne_right _ _ (by decide)
      · rw [if_neg h3]
        by_cases h4 : (endsWithStr normalized "/v1beta" || endsWithStr normalized "/v1") = true
        · rw [if_pos h4]
          exact string_append_ne_right _ _ (by decide)
        · rw [if_neg h4]
          exact string_append_ne_right _ _ (by decide)

theorem appendKeyParam_ne_empty (url apiKey : String) (h : url ≠ "") :
    appendKeyParam url apiKey ≠ "" := by
  unfold appendKeyParam
  by_cases hg : apiKey = "" ∨ containsSub url "key=" = true
  · rw [if_pos hg]; exact h
  · rw [if_neg hg]
    exact string_append_ne_left _ _ (string_append_ne_left _ _ (string_append_ne_left _ _ h))

/-! ## Claims about the proxy endpoint and the data-URI extractor -/

/-- C7: for a non-empty proxy base URL the endpoint is built from the
trimmed, slash-stripped URL: unchanged when it already contains
`:generateContent`; with `:generateContent` appended when the path ends in
`/models/{name}`; with `/models/{model}:generateContent` inserted after a
bare versioned root; `appendKeyParam` adds `key=` exactly when an API key
is given and no `key=` is present, using `&` after an existing query; and
the proxy request always carries the key as both an `Authorization` bearer
header and an `x-goog-api-key` header on a POST to that endpoint. -/
theorem claim_C7_proxy_endpoint :
    (∀ (baseUrl modelName : String), jsTrim baseUrl ≠ "" →
      containsSub (stripTrailingSlashes (jsTrim baseUrl)) ":generateContent" = true →
      buildGeminiEndpoint baseUrl modelName = stripTrailingSlashes (jsTrim baseUrl)) ∧
    (∀ (baseUrl modelName : String), jsTrim baseUrl ≠ "" →
      containsSub (stripTrailingSlashes (jsTrim baseUrl)) ":generateContent" = false →
      endsWithModelsSeg (stripTrailingSlashes (jsTrim baseUrl)) = true →
      buildGeminiEndpoint baseUrl modelName =
        stripTrailingSlashes (jsTrim baseUrl) ++ ":generateContent") ∧
    (∀ (baseUrl modelName : String), jsTrim baseUrl ≠ "" →
      containsSub (stripTrailingSlashes (jsTrim baseUrl)) ":generateContent" = false →
      endsWithModelsSeg (stripTrailingSlashes (jsTrim baseUrl)) = false →
      endsWithStr (stripTrailingSlashes (jsTrim baseUrl)) "/models" = false →
      (endsWithStr (stripTrailingSlashes (jsTrim baseUrl)) "/v1beta" = true ∨
        endsWithStr (stripTrailingSlashes (jsTrim baseUrl)) "/v1" = true) →
      buildGeminiEndpoint baseUrl modelName =
        stripTrailingSlashes (jsTrim baseUrl) ++ "/models/" ++ modelName ++
          ":generateContent") ∧
    (∀ (url apiKey : String), apiKey ≠ "" → containsSub url "key=" = false →
      appendKeyParam url apiKey =
        url ++ (if containsSub url "?" then "&" else "?") ++ "key=" ++
          encodeURIComponent apiKey) ∧
    (∀ (url apiKey : String), containsSub url "key=" = true →
      appendKeyParam url apiKey = url) ∧
    (∀ (baseUrl apiKey modelName : String), jsTrim baseUrl ≠ "" →
      geminiProxyRequest baseUrl apiKey modelName =
        Except.ok
          ⟨appendKeyParam (buildGeminiEndpoint baseUrl modelName) apiKey, "POST",
            [("Content-Type", "application/json"),
             ("Authorization", "Bearer " ++ apiKey),
             ("x-goog-api-key", apiKey)]⟩) := by
  have hbuild : ∀ (baseUrl modelName : String), jsTrim baseUrl ≠ "" →
      buildGeminiEndpoint baseUrl modelName =
        buildGeminiEndpointCore (stripTrailingSlashes (jsTrim baseUrl)) modelName := by
    intro baseUrl modelName htrim
    unfold buildGeminiEndpoint
    rw [if_neg htrim]
  refine ⟨?_, ?_, ?_, ?_, ?_, ?_⟩
  · intro baseUrl modelName htrim hcon
    rw [hbuild baseUrl modelName htrim]
    unfold buildGeminiEndpointCore
    rw [if_pos hcon]
  · intro baseUrl modelName htrim hcon hseg
    rw [hbuild baseUrl modelName htrim]
    unfold buildGeminiEndpointCore
    rw [if_neg (by simp [hcon]), if_pos hseg]
  · intro baseUrl modelName htrim hcon hseg hmod hv
    rw [hbuild baseUrl modelName htrim]
    unfold buildGeminiEndpointCore
    rw [if_neg (by simp [hcon]), if_neg (by simp [hseg]), if_neg (by simp [hmod]),
      if_pos (Bool.or_eq_true _ _ |>.mpr hv)]
  · intro url apiKey hk hcon
    unfold appendKeyParam
    rw [if_neg (by
      rintro (h1 | h2)
      · exact hk h1
      · rw [hcon] at h2; exact Bool.false_ne_true h2)]
  · intro url apiKey hcon
    unfold appendKeyParam
    rw [if_pos (Or.inr hcon)]
  · intro baseUrl apiKey modelName htrim
    have hne : appendKeyParam (buildGeminiEndpoint baseUrl modelName) apiKey ≠ "" := by
      apply appendKeyParam_ne_empty
      rw [hbuild baseUrl modelName htrim]
      exact buildGeminiEndpointCore_ne_empty _ _
    unfold geminiProxyRequest
    rw [if_neg hne]

/-- C7 witness: concrete endpoints for each branch shape, the key-adding
behaviour, and a concrete proxy request carrying the key in both header
conventions and in the query string. -/
theorem claim_C7_witness :
    buildGeminiEndpoint " https://p.example/v1beta/models/m:generateContent/ " "g" =
      stripTrailingSlashes (jsTrim " https://p.example/v1beta/models/m:generateContent/ ") ∧
    buildGeminiEndpoint "https://p.example/v1beta/models/gemini" "g" =
      stripTrailingSlashes (jsTrim "https://p.example/v1beta/models/gemini") ++
        ":generateContent" ∧
    buildGeminiEndpoint "https://p.example/v1beta/" "gem" =
      stripTrailingSlashes (jsTrim "https://p.example/v1beta/") ++ "/models/" ++ "gem" ++
        ":generateContent" ∧
    appendKeyParam "https://p.example/x" "secret" =
      "https://p.example/x" ++
        (if containsSub "https://p.example/x" "?" then "&" else "?") ++ "key=" ++
        encodeURIComponent "secret" ∧
    appendKeyParam "https://p.example/x?key=abc" "secret" = "https://p.example/x?key=abc" ∧
    geminiProxyRequest "https://p.example/v1" "secret" "gem" =
      Except.ok
        ⟨appendKeyParam (buildGeminiEndpoint "https://p.example/v1" "gem") "secret", "POST",
          [("Content-Type", "application/json"),
           ("Authorization", "Bearer " ++ "secret"),
           ("x-goog-api-key", "secret")]⟩ := by
  refine ⟨claim_C7_proxy_endpoint.1 _ "g" (by decide) (by decide),
    claim_C7_proxy_endpoint.2.1 _ "g" (by decide) (by decide) (by decide),
    claim_C7_proxy_endpoint.2.2.1 _ "gem" (by decide) (by decide) (by decide) (by decide)
      (Or.inl (by decide)),
    claim_C7_proxy_endpoint.2.2.2.1 _ "secret" (by decide) (by decide),
    claim_C7_proxy_endpoint.2.2.2.2.1 _ "secret" (by decide),
    claim_C7_proxy_endpoint.2.2.2.2.2 _ "secret" "gem" (by decide)⟩

/-- C8: gluing `data:{mime};base64,{payload}` for a well-formed mime type
(non-empty, `;`-free) and a non-empty base64 payload decodes back to the
original pair; a URI without the `;base64,` marker decodes to `none`; an
empty payload decodes to `none`; and a `none` decode makes the filters
drop the image without any failure reaching the caller. -/
theorem claim_C8_datauri_roundtrip :
    (∀ (mime data : String), mime ≠ "" → (∀ c ∈ mime.data, c ≠ ';') →
      data ≠ "" → (∀ c ∈ data.data, base64Char c = true) →
      extractBase64Data ("data:" ++ mime ++ ";base64," ++ data) = some (mime, data)) ∧
    (∀ uri : String, containsSub uri ";base64," = false → extractBase64Data uri = none) ∧
    (∀ mime : String, mime ≠ "" → (∀ c ∈ mime.data, c ≠ ';') →
      extractBase64Data ("data:" ++ mime ++ ";base64," ++ "") = none) ∧
    (∀ img : UploadedImage, extractBase64Data img.data = none →
      validateUploaded img = none) := by
  refine ⟨?_, ?_, ?_, ?_⟩
  · intro mime data hm hm2 hd hd2
    unfold extractBase64Data
    rw [regexMatchDataUri_roundtrip mime data hm hm2 hd hd2]
    simp [hm, hd]
  · intro uri hcon
    cases hreg : regexMatchDataUri uri with
    | none => unfold extractBase64Data; rw [hreg]
    | some md =>
      exfalso
      obtain ⟨pre, post, hstruct⟩ := regexMatchDataUri_structure uri md hreg
      have : containsSub uri ";base64," = true :=
        (hasInfix_iff _ _).mpr ⟨pre, post, hstruct⟩
      rw [this] at hcon
      exact Bool.true_eq_false ▸ Bool.noConfusion hcon
  · intro mime hm hm2
    have hreg : regexMatchDataUri ("data:" ++ mime ++ ";base64," ++ "") = none := by
      have hpref : ("data:".data).isPrefixOf
          ("data:".data ++ (mime.data ++ ';' :: ("base64,".data ++ "".data))) = true :=
        List.isPrefixOf_iff_prefix.mpr ⟨_, rfl⟩
      have hdrop5 :
          ("data:".data ++ (mime.data ++ ';' :: ("base64,".data ++ "".data))).drop 5 =
            mime.data ++ ';' :: ("base64,".data ++ "".data) := by
        have h5 : ("data:".data).length = 5 := rfl
        rw [← h5, List.drop_left]
      unfold regexMatchDataUri
      rw [mk_roundtrip_uri, if_pos hpref, hdrop5]
      have htake : (mime.data ++ ';' :: ("base64,".data ++ "".data)).takeWhile
          (fun c => c != ';') = mime.data := by
        rw [takeWhile_all_append mime.data _ fun x hx => by simpa using hm2 x hx]
        simp [List.takeWhile_cons]
      unfold regexAfterPrefix
      rw [htake]
      rw [if_neg (by
        intro hnil
        exact (string_ne_empty_iff_data mime).mp hm hnil)]
      have hdropm :
          (mime.data ++ ';' :: ("base64,".data ++ "".data)).drop mime.data.length =
            ';' :: ("base64,".data ++ "".data) := List.drop_left _ _
      rw [hdropm, regexSemi_cons]
      unfold regexTail
      have hpref2 : ("base64,".data).isPrefixOf ("base64,".data ++ "".data) = true :=
        List.isPrefixOf_iff_prefix.mpr ⟨_, rfl⟩
      rw [if_pos hpref2]
      have hdrop7 : ("base64,".data ++ "".data).drop 7 = "".data := by
        have h7 : ("base64,".data).length = 7 := rfl
        rw [← h7, List.drop_left]
      rw [hdrop7, if_pos rfl]
    unfold extractBase64Data
    rw [hreg]
  · intro img h
    unfold validateUploaded
    rw [h]

/-- C8 witness: a concrete PNG data URI round-trips; a marker-less string
and an empty payload decode to `none`; the bad upload is dropped. -/
theorem claim_C8_witness :
    extractBase64Data ("data:" ++ "image/png" ++ ";base64," ++ "AAAA") =
      some ("image/png", "AAAA") ∧
    extractBase64Data "not-a-data-uri" = none ∧
    extractBase64Data ("data:" ++ "image/png" ++ ";base64," ++ "") = none ∧
    validateUploaded badImage = none := by
  refine ⟨claim_C8_datauri_roundtrip.1 "image/png" "AAAA" (by decide) (by decide)
      (by decide) (by decide),
    claim_C8_datauri_roundtrip.2.1 "not-a-data-uri" (by decide),
    claim_C8_datauri_roundtrip.2.2.1 "image/png" (by decide) (by decide),
    claim_C8_datauri_roundtrip.2.2.2 badImage (by decide)⟩

end BananaBatch
